import Mathlib

/-!
Verification of the advection kernel in `src/trunk/src/advect.cpp`
(2D smoke simulator transport step).

Shallow embedding conventions:
* A 2D array of doubles is embedded as a total function `Grid = ℤ → ℤ → ℚ`;
  the C code only ever reads indices inside the allocated ranges (all stencil
  fetches are clamped, all loop indices are in range), so the values of the
  function outside the allocated rectangle are never relevant to the claims,
  which are stated pointwise on in-range cells where needed.
* `double` arithmetic is embedded exactly over `ℚ` (the claims are about the
  exact arithmetic structure of the schemes, not about rounding).
* `(int)x` casts in the C code are applied to values that are either
  nonnegative or exact integers, where truncation agrees with `Int.floor`.
* The global field pointers `gu`, `gc`, `gn`, `gcn` and the global
  `interp_func` selector of the C file are passed explicitly: samplers take
  the "global" grids as separate arguments from the per-stage argument grids,
  because in the multi-stage integrators the globals keep pointing at the
  caller's original fields while the stage temporaries are passed as
  parameters.
* `utility.h` is not part of the sources; per the specification its helpers
  are used only through their contracts (`alloc2D` allocates a zeroed array,
  `copy2D` copies, `op2D out a b` computes `out = a*src0 + b*src1`
  elementwise, `min`/`max` are the usual two-argument macros, and the loop
  macros `FOR_EVERY_X_FLOW(n)`, `FOR_EVERY_Y_FLOW(n)`, `FOR_EVERY_CELL(n)`
  range over `[0,n]×[0,n-1]`, `[0,n-1]×[0,n]` and `[0,n-1]²`).
-/

/-- A 2D array of doubles, embedded as a total function. -/
abbrev Grid : Type := ℤ → ℤ → ℚ

/-- An interpolation kernel `double f(double **d, int w, int h, double x, double y)`. -/
abbrev Kernel : Type := Grid → ℤ → ℤ → ℚ → ℚ → ℚ

/-- The triple (x-velocity grid, y-velocity grid, concentration grid): either a
stage derivative or a fully advanced state, as in the `out[3]` buffers. -/
@[ext]
structure Fields where
  u0 : Grid
  u1 : Grid
  c : Grid

/-- The all-zero grid (a freshly `alloc2D`-ed array, or an identically zero field). -/
def zeroGrid : Grid := fun _ _ => 0

/-- `monotonic_cubic_4` from advect.cpp lines 24-44: 1D limited cubic through
4 samples, evaluated at offset `x`.  `(d1 > 0.0 ? 1.0 : -1.0)` and `fabs` are
embedded literally; note the code only matches the sign of the outer slopes,
it does not limit their magnitude. -/
def monotonic_cubic_4 (a : Fin 4 → ℚ) (x : ℚ) : ℚ :=
  let d0 := a 1 - a 0
  let d1 := a 2 - a 1
  let d2 := a 3 - a 2
  let d0l := if d1 = 0 then 0 else (if 0 < d1 then (1 : ℚ) else -1) * |d0|
  let d2l := if d1 = 0 then 0 else (if 0 < d1 then (1 : ℚ) else -1) * |d2|
  let a3 := d2l + d0l
  let a2 := -d2l - 2 * d0l
  let a1 := d1 + d0l
  let a0 := a 1
  a3 * x ^ 3 + a2 * x ^ 2 + a1 * x + a0

/-- `spline_cubic` from advect.cpp lines 68-95: natural cubic spline through 4
samples via Thomas elimination (the fixed-size loops are unrolled; only the
coefficients `b[1]`, `c[1]`, `d[1]` actually feed the result), clamped to the
[min,max] of the two central samples. -/
def spline_cubic (a : Fin 4 → ℚ) (x : ℚ) : ℚ :=
  let alpha1 := 3 * (a 2 - a 1) - 3 * (a 1 - a 0)
  let alpha2 := 3 * (a 3 - a 2) - 3 * (a 2 - a 1)
  let l1 := (4 : ℚ) - 0
  let mu1 := 1 / l1
  let z1 := (alpha1 - 0) / l1
  let l2 := 4 - mu1
  let mu2 := 1 / l2
  let z2 := (alpha2 - z1) / l2
  let c3 := (0 : ℚ)
  let c2 := z2 - mu2 * c3
  let c1 := z1 - mu1 * c2
  let b1 := a 2 - a 1 - (c2 + 2 * c1) / 3
  let d1 := (c2 - c1) / 3
  let minv := min (a 1) (a 2)
  let maxv := max (a 2) (a 1)
  min maxv (max minv (a 1 + b1 * x + c1 * x ^ 2 + d1 * x ^ 3))

/-- The clamped 4×4 stencil fetch `d[min(width-1,max(0,h))][min(height-1,max(0,v))]`
with `h = (int)x - 1 + i`, `v = (int)y - 1 + j`, shared by `monotonic_cubic`
and `spline_interpolate` (advect.cpp lines 53-59 and 104-110). `fx`, `fy` are
the already-floored coordinates. -/
def stencil (d : Grid) (w h : ℤ) (fx fy : ℤ) (j i : Fin 4) : ℚ :=
  d (min (w - 1) (max 0 (fx - 1 + ((i : ℕ) : ℤ)))) (min (h - 1) (max 0 (fy - 1 + ((j : ℕ) : ℤ))))

/-- `monotonic_cubic` from advect.cpp lines 46-66: clamp `(x,y)` to
`[0,width]×[0,height]`, interpolate each of the 4 stencil rows in `x`, then
interpolate the 4 row results in `y`. -/
def monotonic_cubic (d : Grid) (w h : ℤ) (x y : ℚ) : ℚ :=
  let xc := max 0 (min (w : ℚ) x)
  let yc := max 0 (min (h : ℚ) y)
  let xn : Fin 4 → ℚ := fun j => monotonic_cubic_4 (fun i => stencil d w h ⌊xc⌋ ⌊yc⌋ j i) (xc - ⌊xc⌋)
  monotonic_cubic_4 xn (yc - ⌊yc⌋)

/-- `spline_interpolate` from advect.cpp lines 97-117: same structure as
`monotonic_cubic` with the clamped natural spline as the 1D interpolant. -/
def spline_interpolate (d : Grid) (w h : ℤ) (x y : ℚ) : ℚ :=
  let xc := max 0 (min (w : ℚ) x)
  let yc := max 0 (min (h : ℚ) y)
  let xn : Fin 4 → ℚ := fun j => spline_cubic (fun i => stencil d w h ⌊xc⌋ ⌊yc⌋ j i) (xc - ⌊xc⌋)
  spline_cubic xn (yc - ⌊yc⌋)

/-- `linear_interpolate` from advect.cpp lines 119-126: clamp `(x,y)` to
`[0,width]×[0,height]`, then bilinear blend of the 2×2 cell at
`i = (int)min(x, width-2)`, `j = (int)min(y, height-2)`. -/
def linear_interpolate (d : Grid) (w h : ℤ) (x y : ℚ) : ℚ :=
  let xc := max 0 (min (w : ℚ) x)
  let yc := max 0 (min (h : ℚ) y)
  let i : ℤ := ⌊min xc ((w : ℚ) - 2)⌋
  let j : ℤ := ⌊min yc ((h : ℚ) - 2)⌋
  ((i + 1 - xc) * d i j + (xc - i) * d (i + 1) j) * (j + 1 - yc) +
    ((i + 1 - xc) * d i (j + 1) + (xc - i) * d (i + 1) (j + 1)) * (yc - j)

/-- `weno5calc` from advect.cpp lines 133-146 (with `square` inlined as `^2`
and the decimal constants written as exact rationals). -/
def weno5calc (v1 v2 v3 v4 v5 : ℚ) : ℚ :=
  let e : ℚ := 1 / 1000000
  let r1 := 13 * (v1 - 2 * v2 + v3) ^ 2 / 12 + (v1 - 4 * v2 + 3 * v3) ^ 2 / 4
  let r2 := 13 * (v2 - 2 * v3 + v4) ^ 2 / 12 + (v2 - v4) ^ 2 / 4
  let r3 := 13 * (v3 - 2 * v4 + v5) ^ 2 / 12 + (3 * v3 - 4 * v4 + v5) ^ 2 / 4
  let w1 := (1 / 10 : ℚ) / (e + r1) ^ 2
  let w2 := (6 / 10 : ℚ) / (e + r2) ^ 2
  let w3 := (3 / 10 : ℚ) / (e + r3) ^ 2
  let s := w1 + w2 + w3
  let w1n := w1 / s
  let w2n := w2 / s
  let w3n := w3 / s
  (w1n * (2 * v1 - 7 * v2 + 11 * v3) + w2n * (-v2 + 5 * v3 + 2 * v4) + w3n * (2 * v3 + 5 * v4 - v5)) / 6

/-- `weno5` from advect.cpp lines 147-149; the boolean factors `(u>0)`,
`(u<0)` are embedded as 0/1-valued conditionals. -/
def weno5 (u d0 d1 d2 d3 d4 d5 d6 : ℚ) : ℚ :=
  -u * ((if 0 < u then (1 : ℚ) else 0) * weno5calc (d1 - d0) (d2 - d1) (d3 - d2) (d4 - d3) (d5 - d4) +
        (if u < 0 then (1 : ℚ) else 0) * weno5calc (d6 - d5) (d5 - d4) (d4 - d3) (d3 - d2) (d2 - d1))

/-- `QUICK` from advect.cpp lines 151-154 (with `center = 0.5*(d3-d1)` inlined). -/
def QUICK (u d0 d1 d2 d3 d4 : ℚ) : ℚ :=
  -u * (1 / 2 * (d3 - d1) + (if 0 < u then (1 : ℚ) else 0) * (d4 - 3 * d3 + 3 * d2 - d1) / 8 +
        (if u < 0 then (1 : ℚ) else 0) * (d3 - 3 * d2 + 3 * d1 - d0) / 8)

/-- `u_ref` from advect.cpp lines 157-162: clamped staggered velocity fetch
against the "global" fields `gu0`, `gu1` at resolution `gn`. -/
def u_ref (gu0 gu1 : Grid) (gn : ℤ) (dir i j : ℤ) : ℚ :=
  if dir = 0 then gu0 (max 0 (min gn i)) (max 0 (min (gn - 1) j))
  else gu1 (max 0 (min (gn - 1) i)) (max 0 (min gn j))

/-- `c_ref` from advect.cpp lines 165-168: concentration fetch against the
"global" field `gc` at resolution `gcn`, zero outside `[0,gcn-1]²`. -/
def c_ref (gc : Grid) (gcn : ℤ) (i j : ℤ) : ℚ :=
  if i < 0 ∨ i > gcn - 1 ∨ j < 0 ∨ j > gcn - 1 then 0 else gc i j

/-- `advdiff` from advect.cpp lines 171-185: 1D advective term dispatcher;
the switch falls through to `dd = 0` for any method outside {0,1,2}. -/
def advdiff (method : ℤ) (u d0 d1 d2 d3 d4 d5 d6 : ℚ) : ℚ :=
  if method = 0 then
    -u * ((if 0 < u then (1 : ℚ) else 0) * (d3 - d2) + (if u < 0 then (1 : ℚ) else 0) * (d4 - d3))
  else if method = 1 then weno5 u d0 d1 d2 d3 d4 d5 d6
  else if method = 2 then QUICK u d1 d2 d3 d4 d5
  else 0

/-- Cell-centered x-velocity `up[0][i][j] = 0.5*u[0][i][j]+0.5*u[0][i+1][j]`
(advect.cpp lines 224 and 327), built from the per-stage argument grid. -/
def up0 (u0 : Grid) : Grid := fun i j => 1 / 2 * u0 i j + 1 / 2 * u0 (i + 1) j

/-- Cell-centered y-velocity `up[1][i][j] = 0.5*u[1][i][j]+0.5*u[1][i][j+1]`
(advect.cpp lines 225 and 328). -/
def up1 (u1 : Grid) : Grid := fun i j => 1 / 2 * u1 i j + 1 / 2 * u1 i (j + 1)

/-- Body of the x-flow loop of `advect_diff` (advect.cpp lines 192-204).
`u0` is the per-stage argument grid (`u[0][i][j]` is read directly from it);
the stencil and the transverse velocity go through `u_ref`, i.e. through the
global fields `gu0`, `gu1`. -/
def advect_diff_x (method : ℤ) (u0 gu0 gu1 : Grid) (n : ℤ) (i j : ℤ) : ℚ :=
  let v0 := u0 i j
  let v1 := (u_ref gu0 gu1 n 1 (i - 1) j + u_ref gu0 gu1 n 1 i j +
             u_ref gu0 gu1 n 1 (i - 1) (j + 1) + u_ref gu0 gu1 n 1 i (j + 1)) / 4
  advdiff method v0 (u_ref gu0 gu1 n 0 (i - 3) j) (u_ref gu0 gu1 n 0 (i - 2) j)
      (u_ref gu0 gu1 n 0 (i - 1) j) (u_ref gu0 gu1 n 0 i j) (u_ref gu0 gu1 n 0 (i + 1) j)
      (u_ref gu0 gu1 n 0 (i + 2) j) (u_ref gu0 gu1 n 0 (i + 3) j) * n +
    advdiff method v1 (u_ref gu0 gu1 n 0 i (j - 3)) (u_ref gu0 gu1 n 0 i (j - 2))
      (u_ref gu0 gu1 n 0 i (j - 1)) (u_ref gu0 gu1 n 0 i j) (u_ref gu0 gu1 n 0 i (j + 1))
      (u_ref gu0 gu1 n 0 i (j + 2)) (u_ref gu0 gu1 n 0 i (j + 3)) * n

/-- Body of the y-flow loop of `advect_diff` (advect.cpp lines 207-220). -/
def advect_diff_y (method : ℤ) (u1 gu0 gu1 : Grid) (n : ℤ) (i j : ℤ) : ℚ :=
  let v0 := (u_ref gu0 gu1 n 0 i (j - 1) + u_ref gu0 gu1 n 0 i j +
             u_ref gu0 gu1 n 0 (i + 1) j + u_ref gu0 gu1 n 0 (i + 1) (j - 1)) / 4
  let v1 := u1 i j
  advdiff method v0 (u_ref gu0 gu1 n 1 (i - 3) j) (u_ref gu0 gu1 n 1 (i - 2) j)
      (u_ref gu0 gu1 n 1 (i - 1) j) (u_ref gu0 gu1 n 1 i j) (u_ref gu0 gu1 n 1 (i + 1) j)
      (u_ref gu0 gu1 n 1 (i + 2) j) (u_ref gu0 gu1 n 1 (i + 3) j) * n +
    advdiff method v1 (u_ref gu0 gu1 n 1 i (j - 3)) (u_ref gu0 gu1 n 1 i (j - 2))
      (u_ref gu0 gu1 n 1 i (j - 1)) (u_ref gu0 gu1 n 1 i j) (u_ref gu0 gu1 n 1 i (j + 1))
      (u_ref gu0 gu1 n 1 i (j + 2)) (u_ref gu0 gu1 n 1 i (j + 3)) * n

/-- Body of the concentration loop of `advect_diff` (advect.cpp lines 228-243):
the transport velocity is bilinearly projected from the cell-centered grids
`up0 u0`, `up1 u1` (built from the per-stage argument velocity), while the
concentration stencil goes through `c_ref`, i.e. through the global field `gc`. -/
def advect_diff_c (method : ℤ) (u0 u1 gc : Grid) (n cn : ℤ) (i j : ℤ) : ℚ :=
  let x : ℚ := (i : ℚ) * (n : ℚ) / (cn : ℚ)
  let y : ℚ := (j : ℚ) * (n : ℚ) / (cn : ℚ)
  let v0 := linear_interpolate (up0 u0) n n x y
  let v1 := linear_interpolate (up1 u1) n n x y
  advdiff method v0 (c_ref gc cn (i - 3) j) (c_ref gc cn (i - 2) j) (c_ref gc cn (i - 1) j)
      (c_ref gc cn i j) (c_ref gc cn (i + 1) j) (c_ref gc cn (i + 2) j) (c_ref gc cn (i + 3) j) * cn +
    advdiff method v1 (c_ref gc cn i (j - 3)) (c_ref gc cn i (j - 2)) (c_ref gc cn i (j - 1))
      (c_ref gc cn i j) (c_ref gc cn i (j + 1)) (c_ref gc cn i (j + 2)) (c_ref gc cn i (j + 3)) * cn

/-- `advect_diff` from advect.cpp lines 188-244, as the three derivative grids.
The `dt` parameter is accepted and ignored exactly as in the source. -/
def advect_diff (method : ℤ) (u0 u1 : Grid) (gu0 gu1 gc : Grid) (n cn : ℤ) (_dt : ℚ) : Fields :=
  ⟨fun i j => advect_diff_x method u0 gu0 gu1 n i j,
   fun i j => advect_diff_y method u1 gu0 gu1 n i j,
   fun i j => advect_diff_c method u0 u1 gc n cn i j⟩

/-- The averaged y-velocity at x-faces, `ux[1]` (advect.cpp line 318). -/
def ux1grid (gu0 gu1 : Grid) (n : ℤ) : Grid := fun i j =>
  (u_ref gu0 gu1 n 1 (i - 1) j + u_ref gu0 gu1 n 1 i j +
   u_ref gu0 gu1 n 1 (i - 1) (j + 1) + u_ref gu0 gu1 n 1 i (j + 1)) / 4

/-- The averaged x-velocity at y-faces, `uy[0]` (advect.cpp line 322). -/
def uy0grid (gu0 gu1 : Grid) (n : ℤ) : Grid := fun i j =>
  (u_ref gu0 gu1 n 0 i (j - 1) + u_ref gu0 gu1 n 0 i j +
   u_ref gu0 gu1 n 0 (i + 1) j + u_ref gu0 gu1 n 0 (i + 1) (j - 1)) / 4

/-- The velocity projected to concentration cell centers, `uc[k][i][j] =
interp_func(up[k], n, n, i*n/(double)cn, j*n/(double)cn)` (advect.cpp
lines 331-336). -/
def ucgrid (kernel : Kernel) (upg : Grid) (n cn : ℤ) : Grid := fun i j =>
  kernel upg n n ((i : ℚ) * (n : ℚ) / (cn : ℚ)) ((j : ℚ) * (n : ℚ) / (cn : ℚ))

/-- Body of the `semiLagrangian` loop (advect.cpp lines 279-286): sample the
previous field `d0` at the point traced back by `dt` along `(w0,w1)`. -/
def semiLagrangian_cell (kernel : Kernel) (d0 : Grid) (w h : ℤ) (w0 w1 : Grid) (gn : ℤ)
    (dt : ℚ) (i j : ℤ) : ℚ :=
  kernel d0 w h ((i : ℚ) - (gn : ℚ) * w0 i j * dt) ((j : ℚ) - (gn : ℚ) * w1 i j * dt)

/-- The clamped backward-traced x-coordinate of `maccormack`
(advect.cpp line 253). -/
def mac_x (w : ℤ) (w0 : Grid) (gn : ℤ) (dt : ℚ) (i j : ℤ) : ℚ :=
  min ((w : ℚ) - 1) (max 0 ((i : ℚ) - dt * (gn : ℚ) * w0 i j))

/-- The clamped backward-traced y-coordinate of `maccormack`
(advect.cpp line 254). -/
def mac_y (h : ℤ) (w1 : Grid) (gn : ℤ) (dt : ℚ) (i j : ℤ) : ℚ :=
  min ((h : ℚ) - 1) (max 0 ((j : ℚ) - dt * (gn : ℚ) * w1 i j))

/-- `i0 = min(width-2,max(0,(int)x))` of `maccormack` (advect.cpp line 256). -/
def mac_i0 (w : ℤ) (w0 : Grid) (gn : ℤ) (dt : ℚ) (i j : ℤ) : ℤ :=
  min (w - 2) (max 0 ⌊mac_x w w0 gn dt i j⌋)

/-- `j0 = min(height-2,max(0,(int)y))` of `maccormack` (advect.cpp line 257). -/
def mac_j0 (h : ℤ) (w1 : Grid) (gn : ℤ) (dt : ℚ) (i j : ℤ) : ℤ :=
  min (h - 2) (max 0 ⌊mac_y h w1 gn dt i j⌋)

/-- `min_phi` of `maccormack` (advect.cpp line 271): the minimum of the 4 grid
cells surrounding the clamped backward-traced point. -/
def mac_minphi (d0 : Grid) (w h : ℤ) (w0 w1 : Grid) (gn : ℤ) (dt : ℚ) (i j : ℤ) : ℚ :=
  let i0 := mac_i0 w w0 gn dt i j
  let j0 := mac_j0 h w1 gn dt i j
  min (min (min (d0 i0 j0) (d0 (i0 + 1) j0)) (d0 i0 (j0 + 1))) (d0 (i0 + 1) (j0 + 1))

/-- `max_phi` of `maccormack` (advect.cpp line 272). -/
def mac_maxphi (d0 : Grid) (w h : ℤ) (w0 w1 : Grid) (gn : ℤ) (dt : ℚ) (i j : ℤ) : ℚ :=
  let i0 := mac_i0 w w0 gn dt i j
  let j0 := mac_j0 h w1 gn dt i j
  max (max (max (d0 i0 j0) (d0 (i0 + 1) j0)) (d0 i0 (j0 + 1))) (d0 (i0 + 1) (j0 + 1))

/-- Body of the `maccormack` loop (advect.cpp lines 246-277): backward trace,
forward re-trace, second-order correction `r`, and the final clamp of `r` to
`[min_phi, max_phi]`. -/
def maccormack_cell (kernel : Kernel) (d0 : Grid) (w h : ℤ) (w0 w1 : Grid) (gn : ℤ)
    (dt : ℚ) (i j : ℤ) : ℚ :=
  let x := mac_x w w0 gn dt i j
  let y := mac_y h w1 gn dt i j
  let phi_n_1_hat := kernel d0 w h x y
  let u_hat := kernel w0 w h x y
  let v_hat := kernel w1 w h x y
  let phi_n_hat := kernel d0 w h (x + dt * (gn : ℚ) * u_hat) (y + dt * (gn : ℚ) * v_hat)
  let r := phi_n_1_hat + 1 / 2 * (d0 i j - phi_n_hat)
  max (min r (mac_maxphi d0 w h w0 w1 gn dt i j)) (mac_minphi d0 w h w0 w1 gn dt i j)

/-- `advect_semiLagrangian` from advect.cpp lines 289-360.  `kernel0` is the
value of the global `interp_func` on entry; for method 4 the function
reassigns `interp_func = spline_interpolate` before any use, so both the
`uc` projection and the traces then use the spline kernel.  For any method
other than 3 and 4 the switch leaves `order = 1` (first-order branch). -/
def advect_semiLagrangian (method : ℤ) (kernel0 : Kernel) (u0 u1 c : Grid)
    (gu0 gu1 : Grid) (n cn : ℤ) (dt : ℚ) : Fields :=
  let order : ℤ := if method = 3 then 1 else if method = 4 then 2 else 1
  let kernel := if method = 4 then spline_interpolate else kernel0
  let ux0 := u0
  let ux1 := ux1grid gu0 gu1 n
  let uy0 := uy0grid gu0 gu1 n
  let uy1 := u1
  let uc0 := ucgrid kernel (up0 u0) n cn
  let uc1 := ucgrid kernel (up1 u1) n cn
  if order = 1 then
    ⟨fun i j => semiLagrangian_cell kernel u0 (n + 1) n ux0 ux1 n dt i j,
     fun i j => semiLagrangian_cell kernel u1 n (n + 1) uy0 uy1 n dt i j,
     fun i j => semiLagrangian_cell kernel c cn cn uc0 uc1 n dt i j⟩
  else
    ⟨fun i j => maccormack_cell kernel u0 (n + 1) n ux0 ux1 n dt i j,
     fun i j => maccormack_cell kernel u1 n (n + 1) uy0 uy1 n dt i j,
     fun i j => maccormack_cell kernel c cn cn uc0 uc1 n dt i j⟩

/-- `advect_step` from advect.cpp lines 362-370: Eulerian derivative for
methods below 3, semi-Lagrangian family otherwise.  `u0 u1 c` are the
per-stage argument fields; `gu0 gu1 gc` the globals set at the top of
`advect::advect`. -/
def advect_step (method : ℤ) (kernel : Kernel) (u0 u1 c : Grid) (gu0 gu1 gc : Grid)
    (n cn : ℤ) (dt : ℚ) : Fields :=
  if method < 3 then advect_diff method u0 u1 gu0 gu1 gc n cn dt
  else advect_semiLagrangian method kernel u0 u1 c gu0 gu1 n cn dt

/-- Modelled from the spec: `op2D(out, src0, src1, a, b, size)` from the
missing `utility.h` computes `out = a*src0 + b*src1` elementwise
(specification section 1: "compute `out = a*src0 + b*src1` elementwise"). -/
def op2D (src0 src1 : Grid) (a b : ℚ) : Grid := fun i j => a * src0 i j + b * src1 i j

/-- The `interp_func` selection at advect.cpp lines 392-398: 0 is linear,
1 is the clamped spline, anything else falls to the monotonic cubic. -/
def pick_interp (interp : ℤ) : Kernel :=
  if interp = 0 then linear_interpolate
  else if interp = 1 then spline_interpolate
  else monotonic_cubic

/-- `advect::advect` from advect.cpp lines 372-472, parameterized by the
already-selected kernel.  The globals `gu`, `gc` stay pointing at the caller's
fields for the whole call, so every `advect_step` receives `u0 u1 c` as
globals, while the stage temporaries are passed as the argument fields.
If the integrator selector is outside {0,1,2} (with an Eulerian method) no
branch executes and the fields are returned unchanged; for methods ≥ 3 the
single stage result is copied into the fields (`copy2D`). -/
def advectK (method integrator : ℤ) (kernel : Kernel) (u0 u1 c : Grid) (n cn : ℤ)
    (dt : ℚ) : Fields :=
  if method < 3 then
    if integrator = 0 then
      let k0 := advect_step method kernel u0 u1 c u0 u1 c n cn dt
      ⟨op2D u0 k0.u0 1 dt, op2D u1 k0.u1 1 dt, op2D c k0.c 1 dt⟩
    else if integrator = 1 then
      let k0 := advect_step method kernel u0 u1 c u0 u1 c n cn dt
      let t0 := op2D u0 k0.u0 1 dt
      let t1 := op2D u1 k0.u1 1 dt
      let t2 := op2D c k0.c (1 / 2) dt
      let k1 := advect_step method kernel t0 t1 t2 u0 u1 c n cn dt
      ⟨op2D (op2D u0 k0.u0 1 (1 / 2 * dt)) k1.u0 1 (1 / 2 * dt),
       op2D (op2D u1 k0.u1 1 (1 / 2 * dt)) k1.u1 1 (1 / 2 * dt),
       op2D (op2D c k0.c 1 (1 / 2 * dt)) k1.c 1 (1 / 2 * dt)⟩
    else if integrator = 2 then
      let k0 := advect_step method kernel u0 u1 c u0 u1 c n cn dt
      let k1 := advect_step method kernel (op2D u0 k0.u0 1 (1 / 2 * dt))
        (op2D u1 k0.u1 1 (1 / 2 * dt)) (op2D c k0.c (1 / 2) (1 / 2 * dt)) u0 u1 c n cn dt
      let k2 := advect_step method kernel (op2D u0 k1.u0 1 (1 / 2 * dt))
        (op2D u1 k1.u1 1 (1 / 2 * dt)) (op2D c k1.c (1 / 2) (1 / 2 * dt)) u0 u1 c n cn dt
      let k3 := advect_step method kernel (op2D u0 k2.u0 1 dt)
        (op2D u1 k2.u1 1 dt) (op2D c k2.c (1 / 2) dt) u0 u1 c n cn dt
      ⟨op2D (op2D (op2D (op2D u0 k0.u0 1 (dt / 6)) k1.u0 1 (dt / 3)) k2.u0 1 (dt / 3)) k3.u0 1 (dt / 6),
       op2D (op2D (op2D (op2D u1 k0.u1 1 (dt / 6)) k1.u1 1 (dt / 3)) k2.u1 1 (dt / 3)) k3.u1 1 (dt / 6),
       op2D (op2D (op2D (op2D c k0.c 1 (dt / 6)) k1.c 1 (dt / 3)) k2.c 1 (dt / 3)) k3.c 1 (dt / 6)⟩
    else ⟨u0, u1, c⟩
  else
    let r := advect_step method kernel u0 u1 c u0 u1 c n cn dt
    ⟨r.u0, r.u1, r.c⟩

/-- `advect::advect` with the interpolation selector, exactly as the C entry
point: select `interp_func` by `interp`, then run the integrator. -/
def advect (method interp integrator : ℤ) (u0 u1 c : Grid) (n cn : ℤ) (dt : ℚ) : Fields :=
  advectK method integrator (pick_interp interp) u0 u1 c n cn dt

/-! ### Basic properties of the 1D interpolants -/

/-- At offset 0 the limited cubic returns the second sample. -/
theorem monotonic_cubic_4_zero (a : Fin 4 → ℚ) : monotonic_cubic_4 a 0 = a 1 := by
  simp [monotonic_cubic_4]

/-- If the two central samples agree, the limiter forces all slopes to zero
and the limited cubic is constant. -/
theorem monotonic_cubic_4_const_mid (a : Fin 4 → ℚ) (x : ℚ) (h : a 2 = a 1) :
    monotonic_cubic_4 a x = a 1 := by
  simp [monotonic_cubic_4, h]

/-- At offset 0 the clamped spline returns the second sample. -/
theorem spline_cubic_zero (a : Fin 4 → ℚ) : spline_cubic a 0 = a 1 := by
  simp only [spline_cubic]
  norm_num

/-- If the two central samples agree, the clamp interval of the spline is
degenerate and the result is that common value. -/
theorem spline_cubic_const_mid (a : Fin 4 → ℚ) (x : ℚ) (h : a 2 = a 1) :
    spline_cubic a x = a 1 := by
  simp only [spline_cubic, h, min_self, max_self]
  exact min_eq_left (le_max_left _ _)

theorem monotonic_cubic_4_zero_fn (a : Fin 4 → ℚ) (x : ℚ) (h1 : a 1 = 0) (h2 : a 2 = 0) :
    monotonic_cubic_4 a x = 0 := by
  rw [monotonic_cubic_4_const_mid a x (h2.trans h1.symm)]; exact h1

theorem spline_cubic_zero_fn (a : Fin 4 → ℚ) (x : ℚ) (h1 : a 1 = 0) (h2 : a 2 = 0) :
    spline_cubic a x = 0 := by
  rw [spline_cubic_const_mid a x (h2.trans h1.symm)]; exact h1

/-! ### Coordinate clamping helpers -/

theorem clampQ_intCast (w i : ℤ) (h0 : 0 ≤ i) (hw : i ≤ w) :
    max 0 (min (w : ℚ) (i : ℚ)) = (i : ℚ) := by
  rw [min_eq_right (by exact_mod_cast hw), max_eq_right (by exact_mod_cast h0)]

theorem floor_min_cast (a b : ℤ) : ⌊min ((a : ℚ)) ((b : ℚ))⌋ = min a b := by
  rw [← Int.cast_min, Int.floor_intCast]

/-! ### Kernels at integer grid coordinates return the stored value -/

theorem monotonic_cubic_at_int (d : Grid) (w h i j : ℤ)
    (hi0 : 0 ≤ i) (hi1 : i ≤ w - 1) (hj0 : 0 ≤ j) (hj1 : j ≤ h - 1) :
    monotonic_cubic d w h (i : ℚ) (j : ℚ) = d i j := by
  have hxc : max 0 (min (w : ℚ) (i : ℚ)) = (i : ℚ) := clampQ_intCast w i hi0 (by omega)
  have hyc : max 0 (min (h : ℚ) (j : ℚ)) = (j : ℚ) := clampQ_intCast h j hj0 (by omega)
  simp only [monotonic_cubic, hxc, hyc, Int.floor_intCast, sub_self, monotonic_cubic_4_zero,
    stencil, Fin.val_one, Nat.cast_one]
  congr 1 <;> omega

theorem spline_interpolate_at_int (d : Grid) (w h i j : ℤ)
    (hi0 : 0 ≤ i) (hi1 : i ≤ w - 1) (hj0 : 0 ≤ j) (hj1 : j ≤ h - 1) :
    spline_interpolate d w h (i : ℚ) (j : ℚ) = d i j := by
  have hxc : max 0 (min (w : ℚ) (i : ℚ)) = (i : ℚ) := clampQ_intCast w i hi0 (by omega)
  have hyc : max 0 (min (h : ℚ) (j : ℚ)) = (j : ℚ) := clampQ_intCast h j hj0 (by omega)
  simp only [spline_interpolate, hxc, hyc, Int.floor_intCast, sub_self, spline_cubic_zero,
    stencil, Fin.val_one, Nat.cast_one]
  congr 1 <;> omega

theorem linear_interpolate_at_int (d : Grid) (w h i j : ℤ) (hw : 2 ≤ w) (hh : 2 ≤ h)
    (hi0 : 0 ≤ i) (hi1 : i ≤ w - 1) (hj0 : 0 ≤ j) (hj1 : j ≤ h - 1) :
    linear_interpolate d w h (i : ℚ) (j : ℚ) = d i j := by
  have hxc : max 0 (min (w : ℚ) (i : ℚ)) = (i : ℚ) := clampQ_intCast w i hi0 (by omega)
  have hyc : max 0 (min (h : ℚ) (j : ℚ)) = (j : ℚ) := clampQ_intCast h j hj0 (by omega)
  have hfx : ⌊min ((i : ℚ)) ((w : ℚ) - 2)⌋ = min i (w - 2) := by
    rw [show ((w : ℚ) - 2) = ((w - 2 : ℤ) : ℚ) by push_cast; ring, floor_min_cast]
  have hfy : ⌊min ((j : ℚ)) ((h : ℚ) - 2)⌋ = min j (h - 2) := by
    rw [show ((h : ℚ) - 2) = ((h - 2 : ℤ) : ℚ) by push_cast; ring, floor_min_cast]
  simp only [linear_interpolate, hxc, hyc, hfx, hfy]
  have hrow : ∀ J : ℤ,
      (((min i (w - 2) : ℤ) : ℚ) + 1 - (i : ℚ)) * d (min i (w - 2)) J +
        ((i : ℚ) - ((min i (w - 2) : ℤ) : ℚ)) * d (min i (w - 2) + 1) J = d i J := by
    intro J
    rcases le_or_lt i (w - 2) with hle | hgt
    · have hI : min i (w - 2) = i := min_eq_left hle
      rw [hI]; ring_nf
    · have hI1 : min i (w - 2) + 1 = i := by omega
      have hI : min i (w - 2) = i - 1 := by omega
      rw [hI1, hI]; push_cast; ring_nf
  rw [hrow, hrow]
  rcases le_or_lt j (h - 2) with hle | hgt
  · have hJ : min j (h - 2) = j := min_eq_left hle
    rw [hJ]; ring_nf
  · have hJ1 : min j (h - 2) + 1 = j := by omega
    have hJ : min j (h - 2) = j - 1 := by omega
    rw [hJ1, hJ]; push_cast; ring_nf

/-! ### Kernels on an identically zero grid return zero -/

theorem linear_interpolate_zeroOn (d : Grid) (w h : ℤ) (x y : ℚ) (hd : ∀ i j, d i j = 0) :
    linear_interpolate d w h x y = 0 := by
  simp [linear_interpolate, hd]

theorem monotonic_cubic_zeroOn (d : Grid) (w h : ℤ) (x y : ℚ) (hd : ∀ i j, d i j = 0) :
    monotonic_cubic d w h x y = 0 := by
  simp only [monotonic_cubic]
  exact monotonic_cubic_4_zero_fn _ _
    (monotonic_cubic_4_zero_fn _ _ (by simp [stencil, hd]) (by simp [stencil, hd]))
    (monotonic_cubic_4_zero_fn _ _ (by simp [stencil, hd]) (by simp [stencil, hd]))

theorem spline_interpolate_zeroOn (d : Grid) (w h : ℤ) (x y : ℚ) (hd : ∀ i j, d i j = 0) :
    spline_interpolate d w h x y = 0 := by
  simp only [spline_interpolate]
  exact spline_cubic_zero_fn _ _
    (spline_cubic_zero_fn _ _ (by simp [stencil, hd]) (by simp [stencil, hd]))
    (spline_cubic_zero_fn _ _ (by simp [stencil, hd]) (by simp [stencil, hd]))

/-- The property shared by all three kernels: at an in-range integer grid
coordinate the kernel returns the stored value. -/
def KernelAtInt (k : Kernel) : Prop :=
  ∀ (d : Grid) (w h i j : ℤ), 2 ≤ w → 2 ≤ h → 0 ≤ i → i ≤ w - 1 → 0 ≤ j → j ≤ h - 1 →
    k d w h (i : ℚ) (j : ℚ) = d i j

/-- The property shared by all three kernels: on a pointwise-zero grid the
kernel returns 0 at every coordinate. -/
def KernelZeroOn (k : Kernel) : Prop :=
  ∀ (d : Grid) (w h : ℤ) (x y : ℚ), (∀ i j, d i j = 0) → k d w h x y = 0

theorem pick_interp_cases (interp : ℤ) :
    pick_interp interp = linear_interpolate ∨ pick_interp interp = spline_interpolate ∨
      pick_interp interp = monotonic_cubic := by
  unfold pick_interp
  split
  · exact Or.inl rfl
  split
  · exact Or.inr (Or.inl rfl)
  · exact Or.inr (Or.inr rfl)

theorem pick_interp_atInt (interp : ℤ) : KernelAtInt (pick_interp interp) := by
  rcases pick_interp_cases interp with hk | hk | hk <;> rw [hk] <;>
    intro d w h i j hw hh hi0 hi1 hj0 hj1
  · exact linear_interpolate_at_int d w h i j hw hh hi0 hi1 hj0 hj1
  · exact spline_interpolate_at_int d w h i j hi0 hi1 hj0 hj1
  · exact monotonic_cubic_at_int d w h i j hi0 hi1 hj0 hj1

theorem pick_interp_zeroOn (interp : ℤ) : KernelZeroOn (pick_interp interp) := by
  rcases pick_interp_cases interp with hk | hk | hk <;> rw [hk] <;>
    intro d w h x y hd
  · exact linear_interpolate_zeroOn d w h x y hd
  · exact spline_interpolate_zeroOn d w h x y hd
  · exact monotonic_cubic_zeroOn d w h x y hd

/-! ### Properties of the 1D scheme dispatcher -/

/-- With zero transport velocity every scheme contributes zero. -/
theorem advdiff_zero_u (method : ℤ) (d0 d1 d2 d3 d4 d5 d6 : ℚ) :
    advdiff method 0 d0 d1 d2 d3 d4 d5 d6 = 0 := by
  simp [advdiff, weno5, QUICK]

/-- A method outside {0,1,2} falls through the switch to `dd = 0`. -/
theorem advdiff_invalid (method : ℤ) (h0 : method ≠ 0) (h1 : method ≠ 1) (h2 : method ≠ 2)
    (u d0 d1 d2 d3 d4 d5 d6 : ℚ) : advdiff method u d0 d1 d2 d3 d4 d5 d6 = 0 := by
  simp [advdiff, h0, h1, h2]

/-- Upwind on a locally flat stencil contributes zero for any velocity. -/
theorem advdiff_upwind_flat (u d0 d1 d2 d3 d4 d5 d6 : ℚ) (h32 : d3 = d2) (h43 : d4 = d3) :
    advdiff 0 u d0 d1 d2 d3 d4 d5 d6 = 0 := by
  simp [advdiff, h32, h43]

/-! ### Clamp and neighborhood helpers for MacCormack -/

theorem clamp_mem (r lo hi : ℚ) (h1 : lo ≤ r) (h2 : r ≤ hi) : max (min r hi) lo = r := by
  rw [min_eq_left h2, max_eq_left h1]

theorem min4_le {a b c d x : ℚ} (h : x = a ∨ x = b ∨ x = c ∨ x = d) :
    min (min (min a b) c) d ≤ x := by
  rcases h with h | h | h | h <;> subst h <;> simp [min_le_iff]

theorem le_max4 {a b c d x : ℚ} (h : x = a ∨ x = b ∨ x = c ∨ x = d) :
    x ≤ max (max (max a b) c) d := by
  rcases h with h | h | h | h <;> subst h <;> simp [le_max_iff]

theorem mac_minphi_le_maxphi (d0 : Grid) (w h : ℤ) (w0 w1 : Grid) (gn : ℤ) (dt : ℚ) (i j : ℤ) :
    mac_minphi d0 w h w0 w1 gn dt i j ≤ mac_maxphi d0 w h w0 w1 gn dt i j := by
  unfold mac_minphi mac_maxphi
  exact le_trans (min4_le (Or.inl rfl)) (le_max4 (Or.inl rfl))

/-- The clamp at the end of the MacCormack update confines the output of every
cell to the [min,max] of the 4 cells around the backward-traced point. -/
theorem maccormack_cell_bounds (k : Kernel) (d0 : Grid) (w h : ℤ) (w0 w1 : Grid) (gn : ℤ)
    (dt : ℚ) (i j : ℤ) :
    mac_minphi d0 w h w0 w1 gn dt i j ≤ maccormack_cell k d0 w h w0 w1 gn dt i j ∧
      maccormack_cell k d0 w h w0 w1 gn dt i j ≤ mac_maxphi d0 w h w0 w1 gn dt i j := by
  unfold maccormack_cell
  refine ⟨le_max_right _ _, max_le (min_le_right _ _) (mac_minphi_le_maxphi d0 w h w0 w1 gn dt i j)⟩

/-- For method 4 the whole `advect` call reduces to the three `maccormack`
loops with the spline kernel (the selector forces `interp_func =
spline_interpolate` regardless of `interp`, and the integrator is bypassed). -/
theorem advect_mac_eq (interp integrator : ℤ) (u0 u1 c : Grid) (n cn : ℤ) (dt : ℚ) :
    advect 4 interp integrator u0 u1 c n cn dt =
      ⟨fun i j => maccormack_cell spline_interpolate u0 (n + 1) n u0 (ux1grid u0 u1 n) n dt i j,
       fun i j => maccormack_cell spline_interpolate u1 n (n + 1) (uy0grid u0 u1 n) u1 n dt i j,
       fun i j => maccormack_cell spline_interpolate c cn cn
         (ucgrid spline_interpolate (up0 u0) n cn) (ucgrid spline_interpolate (up1 u1) n cn)
         n dt i j⟩ := by
  simp [advect, advectK, advect_step, advect_semiLagrangian]

/-- C1: for method = MacCormack, at every cell (i,j) of each of the three
advected fields, the value written into the output lies within the [min,max]
of the 4 grid cells surrounding that cell's clamped initial backward-traced
point (`mac_minphi`/`mac_maxphi` are exactly the `min_phi`/`max_phi` of the
source: the min/max over `d0[i0..i0+1][j0..j0+1]` around the traced point). -/
theorem C1_thm (interp integrator : ℤ) (u0 u1 c : Grid) (n cn : ℤ) (dt : ℚ) (i j : ℤ) :
    (mac_minphi u0 (n + 1) n u0 (ux1grid u0 u1 n) n dt i j ≤
        (advect 4 interp integrator u0 u1 c n cn dt).u0 i j ∧
      (advect 4 interp integrator u0 u1 c n cn dt).u0 i j ≤
        mac_maxphi u0 (n + 1) n u0 (ux1grid u0 u1 n) n dt i j) ∧
    (mac_minphi u1 n (n + 1) (uy0grid u0 u1 n) u1 n dt i j ≤
        (advect 4 interp integrator u0 u1 c n cn dt).u1 i j ∧
      (advect 4 interp integrator u0 u1 c n cn dt).u1 i j ≤
        mac_maxphi u1 n (n + 1) (uy0grid u0 u1 n) u1 n dt i j) ∧
    (mac_minphi c cn cn (ucgrid spline_interpolate (up0 u0) n cn)
        (ucgrid spline_interpolate (up1 u1) n cn) n dt i j ≤
        (advect 4 interp integrator u0 u1 c n cn dt).c i j ∧
      (advect 4 interp integrator u0 u1 c n cn dt).c i j ≤
        mac_maxphi c cn cn (ucgrid spline_interpolate (up0 u0) n cn)
          (ucgrid spline_interpolate (up1 u1) n cn) n dt i j) := by
  rw [advect_mac_eq]
  exact ⟨maccormack_cell_bounds _ _ _ _ _ _ _ _ _ _,
         maccormack_cell_bounds _ _ _ _ _ _ _ _ _ _,
         maccormack_cell_bounds _ _ _ _ _ _ _ _ _ _⟩

/-- C9: for method = MacCormack the result is independent of the
interpolation selector: the method-4 branch overwrites `interp_func` with the
spline kernel before any interpolation happens, so any two selector values
produce identical output fields. -/
theorem C9_thm (interp1 interp2 integrator : ℤ) (u0 u1 c : Grid) (n cn : ℤ) (dt : ℚ) :
    advect 4 interp1 integrator u0 u1 c n cn dt = advect 4 interp2 integrator u0 u1 c n cn dt := by
  rw [advect_mac_eq, advect_mac_eq]

/-- C3: `c_ref` returns exactly 0 outside `[0,cn-1]²` and the stored value
inside; `u_ref` with axis 0 reads the x-velocity at indices clamped to
`[0,n]×[0,n-1]`, with axis 1 the y-velocity clamped to `[0,n-1]×[0,n]`.
Both are pure total functions of the fields (no mutation, no failure path
exists in the embedding). -/
theorem C3_thm (u0 u1 c : Grid) (n cn i j : ℤ) :
    (¬(0 ≤ i ∧ i ≤ cn - 1 ∧ 0 ≤ j ∧ j ≤ cn - 1) → c_ref c cn i j = 0) ∧
    ((0 ≤ i ∧ i ≤ cn - 1 ∧ 0 ≤ j ∧ j ≤ cn - 1) → c_ref c cn i j = c i j) ∧
    u_ref u0 u1 n 0 i j = u0 (max 0 (min n i)) (max 0 (min (n - 1) j)) ∧
    u_ref u0 u1 n 1 i j = u1 (max 0 (min (n - 1) i)) (max 0 (min n j)) := by
  refine ⟨?_, ?_, ?_, ?_⟩
  · intro hout
    simp only [c_ref]
    rw [if_pos (by omega)]
  · intro hin
    simp only [c_ref]
    rw [if_neg (by omega)]
  · simp [u_ref]
  · simp [u_ref]

/-- C3 witness: `c_ref` on a 3×3 field returns 0 at the out-of-range index
(5,1) and the stored value at the in-range index (1,1). -/
theorem C3_witness :
    c_ref (fun _ _ => (9 : ℚ)) 3 5 1 = 0 ∧
      c_ref (fun _ _ => (9 : ℚ)) 3 1 1 = (fun _ _ => (9 : ℚ)) 1 1 :=
  ⟨(C3_thm zeroGrid zeroGrid (fun _ _ => (9 : ℚ)) 3 3 5 1).1 (by omega),
   (C3_thm zeroGrid zeroGrid (fun _ _ => (9 : ℚ)) 3 3 1 1).2.1 (by omega)⟩

/-- The key inequality behind the amended C4: a Hermite-type cubic with
endpoint values `A`, `A + D1` and limited end slopes `D1 + D0`, `D1 + D2`
(`0 ≤ D0, D2 ≤ 2*D1`) stays inside `[A, A + D1]` on `[0,1]`. -/
theorem cubic_core (A D0 D1 D2 x : ℚ) (hx0 : 0 ≤ x) (hx1 : x ≤ 1)
    (hD0 : 0 ≤ D0) (hD2 : 0 ≤ D2) (h02 : D0 ≤ 2 * D1) (h22 : D2 ≤ 2 * D1) :
    A ≤ (D2 + D0) * x ^ 3 + (-D2 - 2 * D0) * x ^ 2 + (D1 + D0) * x + A ∧
      (D2 + D0) * x ^ 3 + (-D2 - 2 * D0) * x ^ 2 + (D1 + D0) * x + A ≤ A + D1 := by
  constructor
  · nlinarith [mul_nonneg hx0 (mul_nonneg hD0 (sq_nonneg (1 - x))),
               mul_nonneg hx0 (mul_nonneg hD2 (sq_nonneg (2 * x - 1))),
               mul_nonneg hx0 (by linarith : (0 : ℚ) ≤ 4 * D1 - D2)]
  · nlinarith [mul_nonneg (by linarith : (0 : ℚ) ≤ 1 - x) (mul_nonneg hD0 (sq_nonneg (2 * x - 1))),
               mul_nonneg (by linarith : (0 : ℚ) ≤ 1 - x) (mul_nonneg hD2 (sq_nonneg x)),
               mul_nonneg (by linarith : (0 : ℚ) ≤ 1 - x) (by linarith : (0 : ℚ) ≤ 4 * D1 - D0)]

/-- C4 counterexample: on the 4-sample sequence (0,0,1,100) at offset 1/2 the
limited cubic evaluates to -95/8, strictly below the minimum (0) of the
sequence: the limiter matches only the sign of the outer slopes, not their
magnitude, so the claim as stated is false. -/
theorem C4_counterexample :
    monotonic_cubic_4 ![(0 : ℚ), 0, 1, 100] (1 / 2) <
      min (min (min ((![(0 : ℚ), 0, 1, 100]) 0) ((![(0 : ℚ), 0, 1, 100]) 1))
        ((![(0 : ℚ), 0, 1, 100]) 2)) ((![(0 : ℚ), 0, 1, 100]) 3) := by
  norm_num [monotonic_cubic_4, Matrix.cons_val_zero, Matrix.cons_val_one, Matrix.head_cons,
    Matrix.cons_val_succ, min_def]

/-- C4 (amended): the 1D MonotonicCubic result stays within
[min(a), max(a)] for offsets in [0,1] provided each outer difference is at
most twice the central difference in magnitude (the condition the
counterexample violates). -/
theorem C4_thm (a : Fin 4 → ℚ) (x : ℚ) (hx0 : 0 ≤ x) (hx1 : x ≤ 1)
    (h0 : |a 1 - a 0| ≤ 2 * |a 2 - a 1|) (h2 : |a 3 - a 2| ≤ 2 * |a 2 - a 1|) :
    min (min (min (a 0) (a 1)) (a 2)) (a 3) ≤ monotonic_cubic_4 a x ∧
      monotonic_cubic_4 a x ≤ max (max (max (a 0) (a 1)) (a 2)) (a 3) := by
  have hlo : min (min (min (a 0) (a 1)) (a 2)) (a 3) ≤ min (a 1) (a 2) :=
    le_min (min4_le (Or.inr (Or.inl rfl))) (min4_le (Or.inr (Or.inr (Or.inl rfl))))
  have hhi : max (a 1) (a 2) ≤ max (max (max (a 0) (a 1)) (a 2)) (a 3) :=
    max_le (le_max4 (Or.inr (Or.inl rfl))) (le_max4 (Or.inr (Or.inr (Or.inl rfl))))
  suffices hmid : min (a 1) (a 2) ≤ monotonic_cubic_4 a x ∧
      monotonic_cubic_4 a x ≤ max (a 1) (a 2) from
    ⟨le_trans hlo hmid.1, le_trans hmid.2 hhi⟩
  by_cases hd : a 2 - a 1 = 0
  · rw [monotonic_cubic_4_const_mid a x (by linarith)]
    exact ⟨min_le_left _ _, le_max_left _ _⟩
  rcases lt_or_gt_of_ne hd with hneg | hpos
  · have habs : |a 2 - a 1| = -(a 2 - a 1) := abs_of_neg hneg
    have hcore := cubic_core (-(a 1)) |a 1 - a 0| (a 1 - a 2) |a 3 - a 2| x hx0 hx1
      (abs_nonneg _) (abs_nonneg _) (by rw [habs] at h0; linarith) (by rw [habs] at h2; linarith)
    have heq : monotonic_cubic_4 a x =
        -((|a 3 - a 2| + |a 1 - a 0|) * x ^ 3 + (-|a 3 - a 2| - 2 * |a 1 - a 0|) * x ^ 2 +
          ((a 1 - a 2) + |a 1 - a 0|) * x + -(a 1)) := by
      simp only [monotonic_cubic_4, if_neg hd, if_neg (not_lt.mpr (le_of_lt hneg))]
      ring
    rw [heq]
    constructor
    · rw [min_eq_right (by linarith : a 2 ≤ a 1)]
      linarith [hcore.2]
    · rw [max_eq_left (by linarith : a 2 ≤ a 1)]
      linarith [hcore.1]
  · have habs : |a 2 - a 1| = a 2 - a 1 := abs_of_pos hpos
    have hcore := cubic_core (a 1) |a 1 - a 0| (a 2 - a 1) |a 3 - a 2| x hx0 hx1
      (abs_nonneg _) (abs_nonneg _) (by rw [habs] at h0; exact h0) (by rw [habs] at h2; exact h2)
    have heq : monotonic_cubic_4 a x =
        (|a 3 - a 2| + |a 1 - a 0|) * x ^ 3 + (-|a 3 - a 2| - 2 * |a 1 - a 0|) * x ^ 2 +
          ((a 2 - a 1) + |a 1 - a 0|) * x + a 1 := by
      simp only [monotonic_cubic_4, if_neg hd, if_pos hpos]
      ring
    rw [heq]
    constructor
    · exact le_trans (min_le_left _ _) hcore.1
    · refine le_trans ?_ (le_max_right (a 1) (a 2))
      linarith [hcore.2]

/-- C4 witness: on the monotone sequence (0,1,2,3), whose outer differences
satisfy the slope condition, the interpolant at 1/2 stays within [0,3]. -/
theorem C4_witness :
    min (min (min ((![(0 : ℚ), 1, 2, 3]) 0) ((![(0 : ℚ), 1, 2, 3]) 1)) ((![(0 : ℚ), 1, 2, 3]) 2))
        ((![(0 : ℚ), 1, 2, 3]) 3) ≤ monotonic_cubic_4 ![(0 : ℚ), 1, 2, 3] (1 / 2) ∧
      monotonic_cubic_4 ![(0 : ℚ), 1, 2, 3] (1 / 2) ≤
        max (max (max ((![(0 : ℚ), 1, 2, 3]) 0) ((![(0 : ℚ), 1, 2, 3]) 1)) ((![(0 : ℚ), 1, 2, 3]) 2))
          ((![(0 : ℚ), 1, 2, 3]) 3) :=
  C4_thm ![(0 : ℚ), 1, 2, 3] (1 / 2) (by norm_num) (by norm_num)
    (by norm_num [Matrix.cons_val_zero, Matrix.cons_val_one, Matrix.head_cons, Matrix.cons_val_succ])
    (by norm_num [Matrix.cons_val_zero, Matrix.cons_val_one, Matrix.head_cons, Matrix.cons_val_succ])

/-- For any Eulerian-range method and any semi-Lagrangian-family method other
than 4, the `advect` call with `method ≥ 3` reduces to the three order-1
`semiLagrangian` loops with the user-selected kernel: the switch in
`advect_semiLagrangian` leaves `order = 1` for every method except 4. -/
theorem advect_sl_eq (method interp integrator : ℤ) (hm : ¬ method < 3) (hm4 : method ≠ 4)
    (u0 u1 c : Grid) (n cn : ℤ) (dt : ℚ) :
    advect method interp integrator u0 u1 c n cn dt =
      ⟨fun i j => semiLagrangian_cell (pick_interp interp) u0 (n + 1) n u0 (ux1grid u0 u1 n) n dt i j,
       fun i j => semiLagrangian_cell (pick_interp interp) u1 n (n + 1) (uy0grid u0 u1 n) u1 n dt i j,
       fun i j => semiLagrangian_cell (pick_interp interp) c cn cn
         (ucgrid (pick_interp interp) (up0 u0) n cn) (ucgrid (pick_interp interp) (up1 u1) n cn)
         n dt i j⟩ := by
  simp [advect, advectK, advect_step, advect_semiLagrangian, hm, hm4]

/-- In-range `c_ref` is a plain read. -/
theorem c_ref_in (gc : Grid) (gcn i j : ℤ) (h : 0 ≤ i ∧ i ≤ gcn - 1 ∧ 0 ≤ j ∧ j ≤ gcn - 1) :
    c_ref gc gcn i j = gc i j := by
  simp only [c_ref]
  rw [if_neg (by omega)]

/-- Upwind with a flat central stencil (d2=d3=d4) contributes zero for any
transport velocity. -/
theorem advdiff_upwind_const (v z d0 d1 d5 d6 : ℚ) : advdiff 0 v d0 d1 z z z d5 d6 = 0 := by
  simp [advdiff]

/-- A negative method falls through every case of the `advdiff` switch, so the
whole Eulerian derivative is the zero triple. -/
theorem advect_diff_invalid (method : ℤ) (hm : method < 0) (u0 u1 gu0 gu1 gc : Grid)
    (n cn : ℤ) (dt : ℚ) :
    advect_diff method u0 u1 gu0 gu1 gc n cn dt =
      ⟨fun _ _ => 0, fun _ _ => 0, fun _ _ => 0⟩ := by
  refine Fields.ext ?_ ?_ ?_ <;> funext i j <;>
    simp [advect_diff, advect_diff_x, advect_diff_y, advect_diff_c,
      advdiff_invalid method (by omega) (by omega) (by omega)]

/-- Concrete grids for the concrete evaluations: a constant-1 grid and a 2×2
concentration field holding 5 at (0,1) and 7 at (1,1). -/
def cexOnes : Grid := fun _ _ => 1

def cexC : Grid := fun i j => if i = 0 ∧ j = 1 then (5 : ℚ) else if i = 1 ∧ j = 1 then 7 else 0

/-- C6 counterexample: with the out-of-range method selector 5 (valid
interpolation and integrator selectors, constant rightward velocity,
n = cn = 2, dt = 1/2) the call is not a no-op: the concentration cell (1,1)
changes from 7 to 5, because method 5 falls through to the first-order
semi-Lagrangian branch instead of a zero-contribution branch. -/
theorem C6_counterexample :
    (advect 5 0 0 cexOnes zeroGrid cexC 2 2 (1 / 2)).c 1 1 ≠ cexC 1 1 := by
  have h5 : (advect 5 0 0 cexOnes zeroGrid cexC 2 2 (1 / 2)).c 1 1 = 5 := by
    rw [advect_sl_eq 5 0 0 (by norm_num) (by norm_num)]
    have h1 : ucgrid (pick_interp 0) (up0 cexOnes) 2 2 1 1 = 1 := by
      norm_num [ucgrid, pick_interp, linear_interpolate, up0, cexOnes, min_def, max_def]
    have h2 : ucgrid (pick_interp 0) (up1 zeroGrid) 2 2 1 1 = 0 := by
      norm_num [ucgrid, pick_interp, linear_interpolate, up1, zeroGrid, min_def, max_def]
    show semiLagrangian_cell (pick_interp 0) cexC 2 2 _ _ 2 (1 / 2) 1 1 = 5
    rw [semiLagrangian_cell, h1, h2]
    norm_num [pick_interp, linear_interpolate, cexC, min_def, max_def]
  rw [h5]
  norm_num [cexC]

/-- C6 (amended): no failure is ever signaled, and the fall-through behavior
of each selector is: a method below 0 yields a zero derivative, hence
unchanged fields under every integrator; an integrator outside {0,1,2}
combined with an Eulerian-range method executes no update branch; but a
method ≥ 5 falls through to the first-order semi-Lagrangian path (identical
to method 3), which does advect the fields; and an interpolation selector
outside {0,1,2} falls back to the MonotonicCubic kernel (identical to
selector 2) rather than leaving the fields unchanged. -/
theorem C6_thm (method interp integrator : ℤ) (u0 u1 c : Grid) (n cn : ℤ) (dt : ℚ) :
    (method < 0 → advect method interp integrator u0 u1 c n cn dt = ⟨u0, u1, c⟩) ∧
    (method < 3 → integrator < 0 ∨ 2 < integrator →
      advect method interp integrator u0 u1 c n cn dt = ⟨u0, u1, c⟩) ∧
    (5 ≤ method → advect method interp integrator u0 u1 c n cn dt =
      advect 3 interp integrator u0 u1 c n cn dt) ∧
    (interp < 0 ∨ 2 < interp → advect method interp integrator u0 u1 c n cn dt =
      advect method 2 integrator u0 u1 c n cn dt) := by
  refine ⟨?_, ?_, ?_, ?_⟩
  · intro hm
    have h3 : method < 3 := by omega
    simp only [advect, advectK, if_pos h3]
    simp only [advect_step, if_pos h3, advect_diff_invalid method hm]
    split_ifs <;> refine Fields.ext ?_ ?_ ?_ <;> funext i j <;> simp [op2D]
  · intro h3 hbad
    simp only [advect, advectK, if_pos h3]
    rw [if_neg (by omega), if_neg (by omega), if_neg (by omega)]
  · intro hm
    rw [advect_sl_eq method interp integrator (by omega) (by omega),
      advect_sl_eq 3 interp integrator (by norm_num) (by norm_num)]
  · intro hi
    have hk : pick_interp interp = pick_interp 2 := by
      unfold pick_interp
      rw [if_neg (by omega), if_neg (by omega)]
      norm_num
    simp only [advect]
    rw [hk]

/-- C6 witness: concrete instances of the four amended branches at n = cn = 2:
method -1 and integrator 5 are no-ops, method 5 equals method 3, and
interpolation selector 7 equals selector 2. -/
theorem C6_witness :
    advect (-1) 0 0 cexOnes zeroGrid cexC 2 2 (1 / 2) = ⟨cexOnes, zeroGrid, cexC⟩ ∧
    advect 0 0 5 cexOnes zeroGrid cexC 2 2 (1 / 2) = ⟨cexOnes, zeroGrid, cexC⟩ ∧
    advect 5 0 0 cexOnes zeroGrid cexC 2 2 (1 / 2) = advect 3 0 0 cexOnes zeroGrid cexC 2 2 (1 / 2) ∧
    advect 0 7 0 cexOnes zeroGrid cexC 2 2 (1 / 2) = advect 0 2 0 cexOnes zeroGrid cexC 2 2 (1 / 2) :=
  ⟨(C6_thm (-1) 0 0 cexOnes zeroGrid cexC 2 2 (1 / 2)).1 (by norm_num),
   (C6_thm 0 0 5 cexOnes zeroGrid cexC 2 2 (1 / 2)).2.1 (by norm_num) (Or.inr (by norm_num)),
   (C6_thm 5 0 0 cexOnes zeroGrid cexC 2 2 (1 / 2)).2.2.1 (by norm_num),
   (C6_thm 0 7 0 cexOnes zeroGrid cexC 2 2 (1 / 2)).2.2.2 (Or.inr (by norm_num))⟩

/-- C7 counterexample: for the Upwind method on uniform fields (velocity
(1,0), concentration constant 1, n = cn = 2) the concentration derivative at
the boundary cell (0,0) is -2, not 0: the out-of-range fetch `c_ref(-1,0)`
returns 0 rather than the uniform value, creating an artificial gradient. -/
theorem C7_counterexample :
    (advect_diff 0 cexOnes zeroGrid cexOnes zeroGrid cexOnes 2 2 1).c 0 0 ≠ 0 := by
  have hv : (advect_diff 0 cexOnes zeroGrid cexOnes zeroGrid cexOnes 2 2 1).c 0 0 = -2 := by
    norm_num [advect_diff, advect_diff_c, advdiff, c_ref, linear_interpolate, up0, up1,
      cexOnes, zeroGrid, min_def, max_def]
  rw [hv]
  norm_num

/-- C7 (amended): for Upwind on spatially uniform fields the two velocity
derivative grids vanish at every point (the clamped `u_ref` reproduces the
uniform value everywhere), and the concentration derivative vanishes at every
cell whose 1-neighborhood lies inside `[0,cn-1]²`; at boundary cells the
zero-outside `c_ref` can create a nonzero derivative. -/
theorem C7_thm (a b z : ℚ) (u0 u1 c : Grid) (hu0 : ∀ i j, u0 i j = a)
    (hu1 : ∀ i j, u1 i j = b) (hc : ∀ i j, c i j = z) (n cn : ℤ) (dt : ℚ) (i j : ℤ) :
    (advect_diff 0 u0 u1 u0 u1 c n cn dt).u0 i j = 0 ∧
    (advect_diff 0 u0 u1 u0 u1 c n cn dt).u1 i j = 0 ∧
    (1 ≤ i → i ≤ cn - 2 → 1 ≤ j → j ≤ cn - 2 →
      (advect_diff 0 u0 u1 u0 u1 c n cn dt).c i j = 0) := by
  refine ⟨?_, ?_, ?_⟩
  · simp [advect_diff, advect_diff_x, u_ref, hu0, hu1, advdiff_upwind_const]
  · simp [advect_diff, advect_diff_y, u_ref, hu0, hu1, advdiff_upwind_const]
  · intro h1 h2 h3 h4
    have e1 : c_ref c cn (i - 1) j = z := by
      rw [c_ref_in c cn (i - 1) j ⟨by omega, by omega, by omega, by omega⟩, hc]
    have e2 : c_ref c cn i j = z := by
      rw [c_ref_in c cn i j ⟨by omega, by omega, by omega, by omega⟩, hc]
    have e3 : c_ref c cn (i + 1) j = z := by
      rw [c_ref_in c cn (i + 1) j ⟨by omega, by omega, by omega, by omega⟩, hc]
    have f1 : c_ref c cn i (j - 1) = z := by
      rw [c_ref_in c cn i (j - 1) ⟨by omega, by omega, by omega, by omega⟩, hc]
    have f3 : c_ref c cn i (j + 1) = z := by
      rw [c_ref_in c cn i (j + 1) ⟨by omega, by omega, by omega, by omega⟩, hc]
    simp only [advect_diff, advect_diff_c]
    rw [e1, e2, e3, f1, f3, advdiff_upwind_const, advdiff_upwind_const]
    ring

/-- C7 witness: uniform fields with velocity (2,3) and concentration 5 at
n = 2, cn = 4: the derivative vanishes at the interior cell (1,1) on all
three grids. -/
theorem C7_witness :
    (advect_diff 0 (fun _ _ => 2) (fun _ _ => 3) (fun _ _ => 2) (fun _ _ => 3)
        (fun _ _ => (5 : ℚ)) 2 4 1).u0 1 1 = 0 ∧
    (advect_diff 0 (fun _ _ => 2) (fun _ _ => 3) (fun _ _ => 2) (fun _ _ => 3)
        (fun _ _ => (5 : ℚ)) 2 4 1).u1 1 1 = 0 ∧
    (advect_diff 0 (fun _ _ => 2) (fun _ _ => 3) (fun _ _ => 2) (fun _ _ => 3)
        (fun _ _ => (5 : ℚ)) 2 4 1).c 1 1 = 0 := by
  have h := C7_thm 2 3 5 (fun _ _ => 2) (fun _ _ => 3) (fun _ _ => (5 : ℚ))
    (fun _ _ => rfl) (fun _ _ => rfl) (fun _ _ => rfl) 2 4 1 1 1
  exact ⟨h.1, h.2.1, h.2.2 (by norm_num) (by norm_num) (by norm_num) (by norm_num)⟩

/-- Modelled from the spec: elementwise contract of `op2D` with coefficient 1. -/
theorem op2D_one (s0 s1 : Grid) (b : ℚ) : op2D s0 s1 1 b = fun i j => s0 i j + b * s1 i j := by
  funext i j
  simp [op2D]

/-- Modelled from the spec: elementwise contract of `op2D` with coefficient 1/2. -/
theorem op2D_half (s0 s1 : Grid) (b : ℚ) :
    op2D s0 s1 (1 / 2) b = fun i j => 1 / 2 * s0 i j + b * s1 i j := rfl

/-- C8: for every Eulerian method (0,1,2), the Modified Euler branch feeds the
second derivative evaluation the temporaries `state + dt*k0` for both velocity
components but `0.5*state + dt*k0` for the concentration, and the RK4 branch
applies the same concentration-only 0.5 coefficient in every stage's
temporary (`0.5*c + 0.5*dt*k0`, `0.5*c + 0.5*dt*k1`, `0.5*c + dt*k2`); the
final combinations are the standard Heun and RK4 blends. -/
theorem C8_thm (m : Fin 3) (interp : ℤ) (u0 u1 c : Grid) (n cn : ℤ) (dt : ℚ) :
    (advect ((m : ℕ) : ℤ) interp 1 u0 u1 c n cn dt =
      (let k := pick_interp interp
       let k0 := advect_step ((m : ℕ) : ℤ) k u0 u1 c u0 u1 c n cn dt
       let k1 := advect_step ((m : ℕ) : ℤ) k (fun i j => u0 i j + dt * k0.u0 i j)
         (fun i j => u1 i j + dt * k0.u1 i j) (fun i j => 1 / 2 * c i j + dt * k0.c i j)
         u0 u1 c n cn dt
       ⟨fun i j => u0 i j + 1 / 2 * dt * k0.u0 i j + 1 / 2 * dt * k1.u0 i j,
        fun i j => u1 i j + 1 / 2 * dt * k0.u1 i j + 1 / 2 * dt * k1.u1 i j,
        fun i j => c i j + 1 / 2 * dt * k0.c i j + 1 / 2 * dt * k1.c i j⟩)) ∧
    (advect ((m : ℕ) : ℤ) interp 2 u0 u1 c n cn dt =
      (let k := pick_interp interp
       let k0 := advect_step ((m : ℕ) : ℤ) k u0 u1 c u0 u1 c n cn dt
       let k1 := advect_step ((m : ℕ) : ℤ) k (fun i j => u0 i j + 1 / 2 * dt * k0.u0 i j)
         (fun i j => u1 i j + 1 / 2 * dt * k0.u1 i j)
         (fun i j => 1 / 2 * c i j + 1 / 2 * dt * k0.c i j) u0 u1 c n cn dt
       let k2 := advect_step ((m : ℕ) : ℤ) k (fun i j => u0 i j + 1 / 2 * dt * k1.u0 i j)
         (fun i j => u1 i j + 1 / 2 * dt * k1.u1 i j)
         (fun i j => 1 / 2 * c i j + 1 / 2 * dt * k1.c i j) u0 u1 c n cn dt
       let k3 := advect_step ((m : ℕ) : ℤ) k (fun i j => u0 i j + dt * k2.u0 i j)
         (fun i j => u1 i j + dt * k2.u1 i j)
         (fun i j => 1 / 2 * c i j + dt * k2.c i j) u0 u1 c n cn dt
       ⟨fun i j => u0 i j + dt / 6 * k0.u0 i j + dt / 3 * k1.u0 i j + dt / 3 * k2.u0 i j +
          dt / 6 * k3.u0 i j,
        fun i j => u1 i j + dt / 6 * k0.u1 i j + dt / 3 * k1.u1 i j + dt / 3 * k2.u1 i j +
          dt / 6 * k3.u1 i j,
        fun i j => c i j + dt / 6 * k0.c i j + dt / 3 * k1.c i j + dt / 3 * k2.c i j +
          dt / 6 * k3.c i j⟩)) := by
  have hm3 : ((m : ℕ) : ℤ) < 3 := by
    have := m.isLt
    omega
  constructor
  · simp only [advect, advectK, if_pos hm3, op2D_one, op2D_half]
    norm_num
  · simp only [advect, advectK, if_pos hm3, op2D_one, op2D_half]
    norm_num

/-- When the local backward-trace offsets vanish, a semi-Lagrangian update is
the identity at in-range cells (the kernel samples the stored value at the
integer coordinate). -/
theorem semiLagrangian_cell_id (k : Kernel) (hK : KernelAtInt k) (d0 : Grid) (w h : ℤ)
    (w0 w1 : Grid) (gn : ℤ) (dt : ℚ) (i j : ℤ) (h2w : 2 ≤ w) (h2h : 2 ≤ h)
    (hi0 : 0 ≤ i) (hi1 : i ≤ w - 1) (hj0 : 0 ≤ j) (hj1 : j ≤ h - 1)
    (hb0 : (gn : ℚ) * w0 i j * dt = 0) (hb1 : (gn : ℚ) * w1 i j * dt = 0) :
    semiLagrangian_cell k d0 w h w0 w1 gn dt i j = d0 i j := by
  unfold semiLagrangian_cell
  have e0 : (i : ℚ) - (gn : ℚ) * w0 i j * dt = (i : ℚ) := by rw [hb0]; ring
  have e1 : (j : ℚ) - (gn : ℚ) * w1 i j * dt = (j : ℚ) := by rw [hb1]; ring
  rw [e0, e1]
  exact hK d0 w h i j h2w h2h hi0 hi1 hj0 hj1

/-- When both the backward and the forward trace offsets vanish (zero
velocity sample or zero dt), a MacCormack update is the identity at in-range
cells: the predictor and the corrector both resample the cell itself, and the
cell value lies inside its own clamp neighborhood. -/
theorem maccormack_cell_id (d0 : Grid) (w h : ℤ) (w0 w1 : Grid) (gn : ℤ) (dt : ℚ) (i j : ℤ)
    (h2w : 2 ≤ w) (h2h : 2 ≤ h) (hi0 : 0 ≤ i) (hi1 : i ≤ w - 1) (hj0 : 0 ≤ j) (hj1 : j ≤ h - 1)
    (hb0 : dt * (gn : ℚ) * w0 i j = 0) (hb1 : dt * (gn : ℚ) * w1 i j = 0)
    (hfwd0 : ∀ q1 q2 : ℚ, dt * (gn : ℚ) * spline_interpolate w0 w h q1 q2 = 0)
    (hfwd1 : ∀ q1 q2 : ℚ, dt * (gn : ℚ) * spline_interpolate w1 w h q1 q2 = 0) :
    maccormack_cell spline_interpolate d0 w h w0 w1 gn dt i j = d0 i j := by
  have hx : mac_x w w0 gn dt i j = (i : ℚ) := by
    unfold mac_x
    have e : (i : ℚ) - dt * (gn : ℚ) * w0 i j = (i : ℚ) := by rw [hb0]; ring
    rw [e, max_eq_right (by exact_mod_cast hi0), min_eq_right (by exact_mod_cast hi1)]
  have hy : mac_y h w1 gn dt i j = (j : ℚ) := by
    unfold mac_y
    have e : (j : ℚ) - dt * (gn : ℚ) * w1 i j = (j : ℚ) := by rw [hb1]; ring
    rw [e, max_eq_right (by exact_mod_cast hj0), min_eq_right (by exact_mod_cast hj1)]
  have hI0 : mac_i0 w w0 gn dt i j = min (w - 2) i := by
    unfold mac_i0
    rw [hx, Int.floor_intCast, max_eq_right hi0]
  have hJ0 : mac_j0 h w1 gn dt i j = min (h - 2) j := by
    unfold mac_j0
    rw [hy, Int.floor_intCast, max_eq_right hj0]
  have hmem : d0 i j = d0 (min (w - 2) i) (min (h - 2) j) ∨
      d0 i j = d0 (min (w - 2) i + 1) (min (h - 2) j) ∨
      d0 i j = d0 (min (w - 2) i) (min (h - 2) j + 1) ∨
      d0 i j = d0 (min (w - 2) i + 1) (min (h - 2) j + 1) := by
    rcases (by omega : i = min (w - 2) i ∨ i = min (w - 2) i + 1) with hi' | hi' <;>
      rcases (by omega : j = min (h - 2) j ∨ j = min (h - 2) j + 1) with hj' | hj'
    · exact Or.inl (by rw [← hi', ← hj'])
    · exact Or.inr (Or.inr (Or.inl (by rw [← hi', ← hj'])))
    · exact Or.inr (Or.inl (by rw [← hi', ← hj']))
    · exact Or.inr (Or.inr (Or.inr (by rw [← hi', ← hj'])))
  have e2 : (i : ℚ) + dt * (gn : ℚ) * spline_interpolate w0 w h (i : ℚ) (j : ℚ) = (i : ℚ) := by
    rw [hfwd0]; ring
  have e3 : (j : ℚ) + dt * (gn : ℚ) * spline_interpolate w1 w h (i : ℚ) (j : ℚ) = (j : ℚ) := by
    rw [hfwd1]; ring
  simp only [maccormack_cell, hx, hy, e2, e3,
    spline_interpolate_at_int d0 w h i j hi0 hi1 hj0 hj1]
  have hr : d0 i j + 1 / 2 * (d0 i j - d0 i j) = d0 i j := by ring
  rw [hr]
  apply clamp_mem
  · unfold mac_minphi
    rw [hI0, hJ0]
    exact min4_le hmem
  · unfold mac_maxphi
    rw [hI0, hJ0]
    exact le_max4 hmem

/-- With zero global velocity and a zero per-stage velocity argument, the
whole Eulerian derivative is zero pointwise: every transport velocity sample
is zero and `advdiff` vanishes for zero velocity. -/
theorem advect_diff_zero_vel (method : ℤ) (u0 u1 gu0 gu1 gc : Grid) (n cn : ℤ) (dt : ℚ)
    (hp0 : ∀ i j, u0 i j = 0) (hp1 : ∀ i j, u1 i j = 0)
    (hg0 : ∀ i j, gu0 i j = 0) (hg1 : ∀ i j, gu1 i j = 0) (i j : ℤ) :
    (advect_diff method u0 u1 gu0 gu1 gc n cn dt).u0 i j = 0 ∧
    (advect_diff method u0 u1 gu0 gu1 gc n cn dt).u1 i j = 0 ∧
    (advect_diff method u0 u1 gu0 gu1 gc n cn dt).c i j = 0 := by
  have hup0 : ∀ i' j', up0 u0 i' j' = 0 := by
    intro i' j'
    simp [up0, hp0]
  have hup1 : ∀ i' j', up1 u1 i' j' = 0 := by
    intro i' j'
    simp [up1, hp1]
  have hv0 : linear_interpolate (up0 u0) n n ((i : ℚ) * (n : ℚ) / (cn : ℚ))
      ((j : ℚ) * (n : ℚ) / (cn : ℚ)) = 0 := linear_interpolate_zeroOn _ _ _ _ _ hup0
  have hv1 : linear_interpolate (up1 u1) n n ((i : ℚ) * (n : ℚ) / (cn : ℚ))
      ((j : ℚ) * (n : ℚ) / (cn : ℚ)) = 0 := linear_interpolate_zeroOn _ _ _ _ _ hup1
  refine ⟨?_, ?_, ?_⟩
  · simp [advect_diff, advect_diff_x, u_ref, hp0, hg0, hg1, advdiff_zero_u]
  · simp [advect_diff, advect_diff_y, u_ref, hp1, hg0, hg1, advdiff_zero_u]
  · simp [advect_diff, advect_diff_c, hv0, hv1, advdiff_zero_u]

/-- Pointwise application of the op2D contract. -/

theorem op2D_apply (s0 s1 : Grid) (a b : ℚ) (i j : ℤ) :
    op2D s0 s1 a b i j = a * s0 i j + b * s1 i j := rfl

/-- With identically zero velocity, every Eulerian method and every integrator
branch leaves all three fields unchanged pointwise: every stage derivative is
zero (the velocity temporaries stay zero, and the concentration temporary is
multiplied only by zero derivatives). -/
theorem advectK_eulerian_zero_vel (method integrator : ℤ) (hlt : method < 3) (k : Kernel)
    (u0 u1 c : Grid) (hu0 : ∀ i j, u0 i j = 0) (hu1 : ∀ i j, u1 i j = 0)
    (n cn : ℤ) (dt : ℚ) (i j : ℤ) :
    (advectK method integrator k u0 u1 c n cn dt).u0 i j = u0 i j ∧
    (advectK method integrator k u0 u1 c n cn dt).u1 i j = u1 i j ∧
    (advectK method integrator k u0 u1 c n cn dt).c i j = c i j := by
  have hstep : ∀ (p0 p1 pc : Grid), (∀ a b, p0 a b = 0) → (∀ a b, p1 a b = 0) →
      ∀ a b, (advect_step method k p0 p1 pc u0 u1 c n cn dt).u0 a b = 0 ∧
        (advect_step method k p0 p1 pc u0 u1 c n cn dt).u1 a b = 0 ∧
        (advect_step method k p0 p1 pc u0 u1 c n cn dt).c a b = 0 := by
    intro p0 p1 pc hp0 hp1 a b
    simp only [advect_step, if_pos hlt]
    exact advect_diff_zero_vel method p0 p1 u0 u1 c n cn dt hp0 hp1 hu0 hu1 a b
  by_cases h0 : integrator = 0
  · have hk0 := hstep u0 u1 c hu0 hu1
    simp only [advectK, if_pos hlt, if_pos h0]
    refine ⟨?_, ?_, ?_⟩ <;>
      simp only [op2D_apply, (hk0 i j).1, (hk0 i j).2.1, (hk0 i j).2.2] <;> ring
  by_cases h1 : integrator = 1
  · have hk0 := hstep u0 u1 c hu0 hu1
    simp only [advectK, if_pos hlt, if_neg h0, if_pos h1]
    set k0 := advect_step method k u0 u1 c u0 u1 c n cn dt with hk0def
    have ht0 : ∀ a b, op2D u0 k0.u0 1 dt a b = 0 := by
      intro a b
      rw [op2D_apply, (hk0 a b).1, hu0]
      ring
    have ht1 : ∀ a b, op2D u1 k0.u1 1 dt a b = 0 := by
      intro a b
      rw [op2D_apply, (hk0 a b).2.1, hu1]
      ring
    have hk1 := hstep (op2D u0 k0.u0 1 dt) (op2D u1 k0.u1 1 dt) (op2D c k0.c (1 / 2) dt) ht0 ht1
    refine ⟨?_, ?_, ?_⟩ <;>
      simp only [op2D_apply, (hk0 i j).1, (hk0 i j).2.1, (hk0 i j).2.2,
        (hk1 i j).1, (hk1 i j).2.1, (hk1 i j).2.2] <;> ring
  by_cases h2 : integrator = 2
  · have hk0 := hstep u0 u1 c hu0 hu1
    simp only [advectK, if_pos hlt, if_neg h0, if_neg h1, if_pos h2]
    set k0 := advect_step method k u0 u1 c u0 u1 c n cn dt with hk0def
    have ht0 : ∀ a b, op2D u0 k0.u0 1 (1 / 2 * dt) a b = 0 := by
      intro a b
      rw [op2D_apply, (hk0 a b).1, hu0]
      ring
    have ht1 : ∀ a b, op2D u1 k0.u1 1 (1 / 2 * dt) a b = 0 := by
      intro a b
      rw [op2D_apply, (hk0 a b).2.1, hu1]
      ring
    have hk1 := hstep (op2D u0 k0.u0 1 (1 / 2 * dt)) (op2D u1 k0.u1 1 (1 / 2 * dt))
      (op2D c k0.c (1 / 2) (1 / 2 * dt)) ht0 ht1
    set k1 := advect_step method k (op2D u0 k0.u0 1 (1 / 2 * dt)) (op2D u1 k0.u1 1 (1 / 2 * dt))
      (op2D c k0.c (1 / 2) (1 / 2 * dt)) u0 u1 c n cn dt with hk1def
    have htB0 : ∀ a b, op2D u0 k1.u0 1 (1 / 2 * dt) a b = 0 := by
      intro a b
      rw [op2D_apply, (hk1 a b).1, hu0]
      ring
    have htB1 : ∀ a b, op2D u1 k1.u1 1 (1 / 2 * dt) a b = 0 := by
      intro a b
      rw [op2D_apply, (hk1 a b).2.1, hu1]
      ring
    have hk2 := hstep (op2D u0 k1.u0 1 (1 / 2 * dt)) (op2D u1 k1.u1 1 (1 / 2 * dt))
      (op2D c k1.c (1 / 2) (1 / 2 * dt)) htB0 htB1
    set k2 := advect_step method k (op2D u0 k1.u0 1 (1 / 2 * dt)) (op2D u1 k1.u1 1 (1 / 2 * dt))
      (op2D c k1.c (1 / 2) (1 / 2 * dt)) u0 u1 c n cn dt with hk2def
    have htC0 : ∀ a b, op2D u0 k2.u0 1 dt a b = 0 := by
      intro a b
      rw [op2D_apply, (hk2 a b).1, hu0]
      ring
    have htC1 : ∀ a b, op2D u1 k2.u1 1 dt a b = 0 := by
      intro a b
      rw [op2D_apply, (hk2 a b).2.1, hu1]
      ring
    have hk3 := hstep (op2D u0 k2.u0 1 dt) (op2D u1 k2.u1 1 dt) (op2D c k2.c (1 / 2) dt) htC0 htC1
    refine ⟨?_, ?_, ?_⟩ <;>
      simp only [op2D_apply, (hk0 i j).1, (hk0 i j).2.1, (hk0 i j).2.2,
        (hk1 i j).1, (hk1 i j).2.1, (hk1 i j).2.2,
        (hk2 i j).1, (hk2 i j).2.1, (hk2 i j).2.2,
        (hk3 i j).1, (hk3 i j).2.1, (hk3 i j).2.2] <;> ring
  · simp [advectK, if_pos hlt, if_neg h0, if_neg h1, if_neg h2]

/-- With dt = 0 every Eulerian integrator branch is the identity pointwise:
all update terms carry a factor of dt. -/
theorem advectK_eulerian_dt0 (method integrator : ℤ) (hlt : method < 3) (k : Kernel)
    (u0 u1 c : Grid) (n cn : ℤ) (i j : ℤ) :
    (advectK method integrator k u0 u1 c n cn 0).u0 i j = u0 i j ∧
    (advectK method integrator k u0 u1 c n cn 0).u1 i j = u1 i j ∧
    (advectK method integrator k u0 u1 c n cn 0).c i j = c i j := by
  by_cases h0 : integrator = 0
  · simp only [advectK, if_pos hlt, if_pos h0]
    refine ⟨?_, ?_, ?_⟩ <;> simp only [op2D_apply] <;> ring
  by_cases h1 : integrator = 1
  · simp only [advectK, if_pos hlt, if_neg h0, if_pos h1]
    refine ⟨?_, ?_, ?_⟩ <;> simp only [op2D_apply] <;> ring
  by_cases h2 : integrator = 2
  · simp only [advectK, if_pos hlt, if_neg h0, if_neg h1, if_pos h2]
    refine ⟨?_, ?_, ?_⟩ <;> simp only [op2D_apply] <;> ring
  · simp [advectK, if_pos hlt, if_neg h0, if_neg h1, if_neg h2]

/-- C2: for every enumerated method, every interpolation selector, every
integrator selector and every dt, one `advect` call on an identically zero
velocity field leaves both the velocity field (at its staggered in-range
cells) and the concentration field (at its in-range cells) exactly
unchanged. -/
theorem C2_thm (method interp integrator : ℤ) (hm0 : 0 ≤ method) (hm4 : method ≤ 4)
    (u0 u1 c : Grid) (hu0 : ∀ i j, u0 i j = 0) (hu1 : ∀ i j, u1 i j = 0)
    (n cn : ℤ) (hn : 2 ≤ n) (hcn : 2 ≤ cn) (dt : ℚ) (i j : ℤ) :
    (0 ≤ i → i ≤ n → 0 ≤ j → j ≤ n - 1 →
      (advect method interp integrator u0 u1 c n cn dt).u0 i j = u0 i j) ∧
    (0 ≤ i → i ≤ n - 1 → 0 ≤ j → j ≤ n →
      (advect method interp integrator u0 u1 c n cn dt).u1 i j = u1 i j) ∧
    (0 ≤ i → i ≤ cn - 1 → 0 ≤ j → j ≤ cn - 1 →
      (advect method interp integrator u0 u1 c n cn dt).c i j = c i j) := by
  have hux1 : ∀ a b, ux1grid u0 u1 n a b = 0 := by
    intro a b
    simp [ux1grid, u_ref, hu0, hu1]
  have huy0 : ∀ a b, uy0grid u0 u1 n a b = 0 := by
    intro a b
    simp [uy0grid, u_ref, hu0, hu1]
  have hup0 : ∀ a b, up0 u0 a b = 0 := by
    intro a b
    simp [up0, hu0]
  have hup1 : ∀ a b, up1 u1 a b = 0 := by
    intro a b
    simp [up1, hu1]
  rcases (by omega : method < 3 ∨ method = 3 ∨ method = 4) with hlt | hmeq | hmeq
  · have hall := advectK_eulerian_zero_vel method integrator hlt (pick_interp interp)
      u0 u1 c hu0 hu1 n cn dt i j
    exact ⟨fun _ _ _ _ => hall.1, fun _ _ _ _ => hall.2.1, fun _ _ _ _ => hall.2.2⟩
  · subst hmeq
    rw [advect_sl_eq 3 interp integrator (by norm_num) (by norm_num)]
    have huc0 : ∀ a b, ucgrid (pick_interp interp) (up0 u0) n cn a b = 0 := fun a b =>
      pick_interp_zeroOn interp _ _ _ _ _ hup0
    have huc1 : ∀ a b, ucgrid (pick_interp interp) (up1 u1) n cn a b = 0 := fun a b =>
      pick_interp_zeroOn interp _ _ _ _ _ hup1
    refine ⟨?_, ?_, ?_⟩
    · intro hi0 hi1 hj0 hj1
      exact semiLagrangian_cell_id _ (pick_interp_atInt interp) u0 (n + 1) n u0
        (ux1grid u0 u1 n) n dt i j (by omega) (by omega) hi0 (by omega) hj0 hj1
        (by rw [hu0]; ring) (by rw [hux1]; ring)
    · intro hi0 hi1 hj0 hj1
      exact semiLagrangian_cell_id _ (pick_interp_atInt interp) u1 n (n + 1)
        (uy0grid u0 u1 n) u1 n dt i j (by omega) (by omega) hi0 hi1 hj0 (by omega)
        (by rw [huy0]; ring) (by rw [hu1]; ring)
    · intro hi0 hi1 hj0 hj1
      exact semiLagrangian_cell_id _ (pick_interp_atInt interp) c cn cn
        (ucgrid (pick_interp interp) (up0 u0) n cn) (ucgrid (pick_interp interp) (up1 u1) n cn)
        n dt i j hcn hcn hi0 hi1 hj0 hj1 (by rw [huc0]; ring) (by rw [huc1]; ring)
  · subst hmeq
    rw [advect_mac_eq interp integrator u0 u1 c n cn dt]
    have huc0 : ∀ a b, ucgrid spline_interpolate (up0 u0) n cn a b = 0 := fun a b =>
      spline_interpolate_zeroOn _ _ _ _ _ hup0
    have huc1 : ∀ a b, ucgrid spline_interpolate (up1 u1) n cn a b = 0 := fun a b =>
      spline_interpolate_zeroOn _ _ _ _ _ hup1
    refine ⟨?_, ?_, ?_⟩
    · intro hi0 hi1 hj0 hj1
      exact maccormack_cell_id u0 (n + 1) n u0 (ux1grid u0 u1 n) n dt i j
        (by omega) (by omega) hi0 (by omega) hj0 hj1
        (by rw [hu0]; ring) (by rw [hux1]; ring)
        (fun q1 q2 => by rw [spline_interpolate_zeroOn u0 (n + 1) n q1 q2 hu0]; ring)
        (fun q1 q2 => by rw [spline_interpolate_zeroOn _ (n + 1) n q1 q2 hux1]; ring)
    · intro hi0 hi1 hj0 hj1
      exact maccormack_cell_id u1 n (n + 1) (uy0grid u0 u1 n) u1 n dt i j
        (by omega) (by omega) hi0 hi1 hj0 (by omega)
        (by rw [huy0]; ring) (by rw [hu1]; ring)
        (fun q1 q2 => by rw [spline_interpolate_zeroOn _ n (n + 1) q1 q2 huy0]; ring)
        (fun q1 q2 => by rw [spline_interpolate_zeroOn u1 n (n + 1) q1 q2 hu1]; ring)
    · intro hi0 hi1 hj0 hj1
      exact maccormack_cell_id c cn cn (ucgrid spline_interpolate (up0 u0) n cn)
        (ucgrid spline_interpolate (up1 u1) n cn) n dt i j hcn hcn hi0 hi1 hj0 hj1
        (by rw [huc0]; ring) (by rw [huc1]; ring)
        (fun q1 q2 => by rw [spline_interpolate_zeroOn _ cn cn q1 q2 huc0]; ring)
        (fun q1 q2 => by rw [spline_interpolate_zeroOn _ cn cn q1 q2 huc1]; ring)

/-- C2 witness: MacCormack (method 4) with zero velocity, n = cn = 2, dt = 1,
leaves the concentration cell (1,1) (value 7 in `cexC`) unchanged. -/
theorem C2_witness : (advect 4 0 0 zeroGrid zeroGrid cexC 2 2 1).c 1 1 = cexC 1 1 :=
  (C2_thm 4 0 0 (by norm_num) (by norm_num) zeroGrid zeroGrid cexC
    (fun _ _ => rfl) (fun _ _ => rfl) 2 2 (by norm_num) (by norm_num) 1 1 1).2.2
    (by norm_num) (by norm_num) (by norm_num) (by norm_num)

/-- C10: for dt = 0, every combination of enumerated method, interpolation
kernel and integrator selectors leaves both fields exactly unchanged at their
in-range cells: Eulerian updates add dt-scaled terms, and both semi-Lagrangian
traces are of length zero, landing on integer coordinates where every kernel
returns the stored value. -/
theorem C10_thm (method interp integrator : ℤ) (hm0 : 0 ≤ method) (hm4 : method ≤ 4)
    (u0 u1 c : Grid) (n cn : ℤ) (hn : 2 ≤ n) (hcn : 2 ≤ cn) (i j : ℤ) :
    (0 ≤ i → i ≤ n → 0 ≤ j → j ≤ n - 1 →
      (advect method interp integrator u0 u1 c n cn 0).u0 i j = u0 i j) ∧
    (0 ≤ i → i ≤ n - 1 → 0 ≤ j → j ≤ n →
      (advect method interp integrator u0 u1 c n cn 0).u1 i j = u1 i j) ∧
    (0 ≤ i → i ≤ cn - 1 → 0 ≤ j → j ≤ cn - 1 →
      (advect method interp integrator u0 u1 c n cn 0).c i j = c i j) := by
  rcases (by omega : method < 3 ∨ method = 3 ∨ method = 4) with hlt | hmeq | hmeq
  · have hall := advectK_eulerian_dt0 method integrator hlt (pick_interp interp) u0 u1 c n cn i j
    exact ⟨fun _ _ _ _ => hall.1, fun _ _ _ _ => hall.2.1, fun _ _ _ _ => hall.2.2⟩
  · subst hmeq
    rw [advect_sl_eq 3 interp integrator (by norm_num) (by norm_num)]
    refine ⟨?_, ?_, ?_⟩
    · intro hi0 hi1 hj0 hj1
      exact semiLagrangian_cell_id _ (pick_interp_atInt interp) u0 (n + 1) n u0
        (ux1grid u0 u1 n) n 0 i j (by omega) (by omega) hi0 (by omega) hj0 hj1
        (by ring) (by ring)
    · intro hi0 hi1 hj0 hj1
      exact semiLagrangian_cell_id _ (pick_interp_atInt interp) u1 n (n + 1)
        (uy0grid u0 u1 n) u1 n 0 i j (by omega) (by omega) hi0 hi1 hj0 (by omega)
        (by ring) (by ring)
    · intro hi0 hi1 hj0 hj1
      exact semiLagrangian_cell_id _ (pick_interp_atInt interp) c cn cn
        (ucgrid (pick_interp interp) (up0 u0) n cn) (ucgrid (pick_interp interp) (up1 u1) n cn)
        n 0 i j hcn hcn hi0 hi1 hj0 hj1 (by ring) (by ring)
  · subst hmeq
    rw [advect_mac_eq interp integrator u0 u1 c n cn 0]
    refine ⟨?_, ?_, ?_⟩
    · intro hi0 hi1 hj0 hj1
      exact maccormack_cell_id u0 (n + 1) n u0 (ux1grid u0 u1 n) n 0 i j
        (by omega) (by omega) hi0 (by omega) hj0 hj1 (by ring) (by ring)
        (fun q1 q2 => by ring) (fun q1 q2 => by ring)
    · intro hi0 hi1 hj0 hj1
      exact maccormack_cell_id u1 n (n + 1) (uy0grid u0 u1 n) u1 n 0 i j
        (by omega) (by omega) hi0 hi1 hj0 (by omega) (by ring) (by ring)
        (fun q1 q2 => by ring) (fun q1 q2 => by ring)
    · intro hi0 hi1 hj0 hj1
      exact maccormack_cell_id c cn cn (ucgrid spline_interpolate (up0 u0) n cn)
        (ucgrid spline_interpolate (up1 u1) n cn) n 0 i j hcn hcn hi0 hi1 hj0 hj1
        (by ring) (by ring) (fun q1 q2 => by ring) (fun q1 q2 => by ring)

/-- C10 witness: semi-Lagrangian (method 3) with nonzero velocity but dt = 0
at n = cn = 2 leaves the concentration cell (1,1) (value 7 in `cexC`)
unchanged. -/
theorem C10_witness : (advect 3 0 0 cexOnes zeroGrid cexC 2 2 0).c 1 1 = cexC 1 1 :=
  (C10_thm 3 0 0 (by norm_num) (by norm_num) cexOnes zeroGrid cexC 2 2
    (by norm_num) (by norm_num) 1 1).2.2 (by norm_num) (by norm_num) (by norm_num) (by norm_num)

theorem fin4_one : (((1 : Fin 4) : ℕ) : ℤ) = 1 := rfl

theorem fin4_two : (((2 : Fin 4) : ℕ) : ℤ) = 2 := rfl

/-- The per-axis clamp sends any coordinate at or beyond dim-1 into
[dim-1, dim] (note: the code clamps to [0,dim], not [0,dim-1]). -/
theorem boundary_xc (w : ℤ) (hw : 1 ≤ w) (x : ℚ) (hx : (w : ℚ) - 1 ≤ x) :
    (w : ℚ) - 1 ≤ max 0 (min (w : ℚ) x) ∧ max 0 (min (w : ℚ) x) ≤ (w : ℚ) := by
  have hw0 : (0 : ℚ) ≤ (w : ℚ) := by exact_mod_cast (by omega : (0 : ℤ) ≤ w)
  constructor
  · exact le_trans (le_min (by linarith) hx) (le_max_right _ _)
  · exact max_le hw0 (min_le_left _ _)

/-- For any x at or beyond width-1, the monotonic-cubic result collapses to
the y-interpolation of the column width-1 (the central stencil samples
coincide, so the limiter forces a constant row). -/
theorem monotonic_cubic_boundary_x (d : Grid) (w h : ℤ) (hw : 1 ≤ w) (x y : ℚ)
    (hx : (w : ℚ) - 1 ≤ x) :
    monotonic_cubic d w h x y =
      monotonic_cubic_4
        (fun j' => d (w - 1) (min (h - 1) (max 0 (⌊max 0 (min (h : ℚ) y)⌋ - 1 + ((j' : ℕ) : ℤ)))))
        (max 0 (min (h : ℚ) y) - ⌊max 0 (min (h : ℚ) y)⌋) := by
  obtain ⟨hxc1, hxc2⟩ := boundary_xc w hw x hx
  rcases lt_or_eq_of_le hxc2 with hlt | heq
  · have hfl : ⌊max 0 (min (w : ℚ) x)⌋ = w - 1 := by
      rw [Int.floor_eq_iff]
      constructor
      · push_cast
        linarith
      · push_cast
        linarith
    simp only [monotonic_cubic, hfl]
    congr 1
    funext j'
    rw [monotonic_cubic_4_const_mid _ _ (by
      simp only [stencil, fin4_one, fin4_two]
      congr 1
      omega)]
    simp only [stencil, fin4_one]
    congr 1
    omega
  · have hfl : ⌊max 0 (min (w : ℚ) x)⌋ = w := by
      rw [heq, Int.floor_intCast]
    simp only [monotonic_cubic, hfl]
    congr 1
    funext j'
    rw [show max 0 (min (w : ℚ) x) - (w : ℚ) = 0 from by rw [heq]; ring]
    rw [monotonic_cubic_4_zero]
    simp only [stencil, fin4_one]
    congr 1
    omega

/-- Spline analogue of `monotonic_cubic_boundary_x`: the degenerate clamp
interval forces each row to the column width-1 sample. -/
theorem spline_interpolate_boundary_x (d : Grid) (w h : ℤ) (hw : 1 ≤ w) (x y : ℚ)
    (hx : (w : ℚ) - 1 ≤ x) :
    spline_interpolate d w h x y =
      spline_cubic
        (fun j' => d (w - 1) (min (h - 1) (max 0 (⌊max 0 (min (h : ℚ) y)⌋ - 1 + ((j' : ℕ) : ℤ)))))
        (max 0 (min (h : ℚ) y) - ⌊max 0 (min (h : ℚ) y)⌋) := by
  obtain ⟨hxc1, hxc2⟩ := boundary_xc w hw x hx
  rcases lt_or_eq_of_le hxc2 with hlt | heq
  · have hfl : ⌊max 0 (min (w : ℚ) x)⌋ = w - 1 := by
      rw [Int.floor_eq_iff]
      constructor
      · push_cast
        linarith
      · push_cast
        linarith
    simp only [spline_interpolate, hfl]
    congr 1
    funext j'
    rw [spline_cubic_const_mid _ _ (by
      simp only [stencil, fin4_one, fin4_two]
      congr 1
      omega)]
    simp only [stencil, fin4_one]
    congr 1
    omega
  · have hfl : ⌊max 0 (min (w : ℚ) x)⌋ = w := by
      rw [heq, Int.floor_intCast]
    simp only [spline_interpolate, hfl]
    congr 1
    funext j'
    rw [show max 0 (min (w : ℚ) x) - (w : ℚ) = 0 from by rw [heq]; ring]
    rw [spline_cubic_zero]
    simp only [stencil, fin4_one]
    congr 1
    omega

/-- For any y at or beyond height-1, the monotonic-cubic result collapses to
the x-interpolation of the row height-1. -/
theorem monotonic_cubic_boundary_y (d : Grid) (w h : ℤ) (hh : 1 ≤ h) (x y : ℚ)
    (hy : (h : ℚ) - 1 ≤ y) :
    monotonic_cubic d w h x y =
      monotonic_cubic_4
        (fun i' => d (min (w - 1) (max 0 (⌊max 0 (min (w : ℚ) x)⌋ - 1 + ((i' : ℕ) : ℤ)))) (h - 1))
        (max 0 (min (w : ℚ) x) - ⌊max 0 (min (w : ℚ) x)⌋) := by
  obtain ⟨hyc1, hyc2⟩ := boundary_xc h hh y hy
  rcases lt_or_eq_of_le hyc2 with hlt | heq
  · have hfl : ⌊max 0 (min (h : ℚ) y)⌋ = h - 1 := by
      rw [Int.floor_eq_iff]
      constructor
      · push_cast
        linarith
      · push_cast
        linarith
    simp only [monotonic_cubic, hfl]
    rw [monotonic_cubic_4_const_mid _ _ (by
      show monotonic_cubic_4 (fun i => stencil d w h ⌊max 0 (min (w : ℚ) x)⌋ (h - 1) 2 i) _ =
        monotonic_cubic_4 (fun i => stencil d w h ⌊max 0 (min (w : ℚ) x)⌋ (h - 1) 1 i) _
      congr 1
      funext i'
      simp only [stencil, fin4_one, fin4_two]
      congr 1
      omega)]
    congr 1
    funext i'
    simp only [stencil, fin4_one]
    congr 1
    omega
  · have hfl : ⌊max 0 (min (h : ℚ) y)⌋ = h := by
      rw [heq, Int.floor_intCast]
    simp only [monotonic_cubic, hfl]
    rw [show max 0 (min (h : ℚ) y) - (h : ℚ) = 0 from by rw [heq]; ring]
    rw [monotonic_cubic_4_zero]
    congr 1
    funext i'
    simp only [stencil, fin4_one]
    congr 1
    omega

/-- Spline analogue of `monotonic_cubic_boundary_y`. -/
theorem spline_interpolate_boundary_y (d : Grid) (w h : ℤ) (hh : 1 ≤ h) (x y : ℚ)
    (hy : (h : ℚ) - 1 ≤ y) :
    spline_interpolate d w h x y =
      spline_cubic
        (fun i' => d (min (w - 1) (max 0 (⌊max 0 (min (w : ℚ) x)⌋ - 1 + ((i' : ℕ) : ℤ)))) (h - 1))
        (max 0 (min (w : ℚ) x) - ⌊max 0 (min (w : ℚ) x)⌋) := by
  obtain ⟨hyc1, hyc2⟩ := boundary_xc h hh y hy
  rcases lt_or_eq_of_le hyc2 with hlt | heq
  · have hfl : ⌊max 0 (min (h : ℚ) y)⌋ = h - 1 := by
      rw [Int.floor_eq_iff]
      constructor
      · push_cast
        linarith
      · push_cast
        linarith
    simp only [spline_interpolate, hfl]
    rw [spline_cubic_const_mid _ _ (by
      show spline_cubic (fun i => stencil d w h ⌊max 0 (min (w : ℚ) x)⌋ (h - 1) 2 i) _ =
        spline_cubic (fun i => stencil d w h ⌊max 0 (min (w : ℚ) x)⌋ (h - 1) 1 i) _
      congr 1
      funext i'
      simp only [stencil, fin4_one, fin4_two]
      congr 1
      omega)]
    congr 1
    funext i'
    simp only [stencil, fin4_one]
    congr 1
    omega
  · have hfl : ⌊max 0 (min (h : ℚ) y)⌋ = h := by
      rw [heq, Int.floor_intCast]
    simp only [spline_interpolate, hfl]
    rw [show max 0 (min (h : ℚ) y) - (h : ℚ) = 0 from by rw [heq]; ring]
    rw [spline_cubic_zero]
    congr 1
    funext i'
    simp only [stencil, fin4_one]
    congr 1
    omega

/-- C5 counterexample: the Linear kernel does not return the x = width-1
value when sampled at x = width > width-1: on a 2×2 grid with column 0 at
value 0 and column 1 at value 1, sampling at (2,0) gives 2 (linear
extrapolation past the last cell, since the clamp is to [0,width] not
[0,width-1]) while sampling at (1,0) gives 1. -/
theorem C5_counterexample :
    linear_interpolate (fun i _ => if i = 1 then (1 : ℚ) else 0) 2 2 2 0 ≠
      linear_interpolate (fun i _ => if i = 1 then (1 : ℚ) else 0) 2 2 ((2 : ℚ) - 1) 0 := by
  norm_num [linear_interpolate, min_def, max_def]

/-- C5 (amended): the evaluation coordinate is clamped per-axis to [0, dim]
(not [0, dim-1]); for the Spline and MonotonicCubic kernels the result at any
x ≥ width-1 equals the result at x = width-1 (and likewise in y against
height-1), while the Linear kernel extrapolates on (width-1, width] (see the
counterexample). -/
theorem C5_thm (d : Grid) (w h : ℤ) (hw : 1 ≤ w) (hh : 1 ≤ h) (x y : ℚ) :
    ((w : ℚ) - 1 ≤ x →
      spline_interpolate d w h x y = spline_interpolate d w h ((w : ℚ) - 1) y ∧
      monotonic_cubic d w h x y = monotonic_cubic d w h ((w : ℚ) - 1) y) ∧
    ((h : ℚ) - 1 ≤ y →
      spline_interpolate d w h x y = spline_interpolate d w h x ((h : ℚ) - 1) ∧
      monotonic_cubic d w h x y = monotonic_cubic d w h x ((h : ℚ) - 1)) := by
  constructor
  · intro hx
    exact ⟨(spline_interpolate_boundary_x d w h hw x y hx).trans
        (spline_interpolate_boundary_x d w h hw ((w : ℚ) - 1) y (le_refl _)).symm,
      (monotonic_cubic_boundary_x d w h hw x y hx).trans
        (monotonic_cubic_boundary_x d w h hw ((w : ℚ) - 1) y (le_refl _)).symm⟩
  · intro hy
    exact ⟨(spline_interpolate_boundary_y d w h hh x y hy).trans
        (spline_interpolate_boundary_y d w h hh x ((h : ℚ) - 1) (le_refl _)).symm,
      (monotonic_cubic_boundary_y d w h hh x y hy).trans
        (monotonic_cubic_boundary_y d w h hh x ((h : ℚ) - 1) (le_refl _)).symm⟩

/-- C5 witness: on the concrete 2×2 field, sampling the spline and monotonic
kernels at x = 5 gives the same value as at x = width-1 = 1. -/
theorem C5_witness :
    spline_interpolate cexC 2 2 5 0 = spline_interpolate cexC 2 2 ((2 : ℚ) - 1) 0 ∧
      monotonic_cubic cexC 2 2 5 0 = monotonic_cubic cexC 2 2 ((2 : ℚ) - 1) 0 :=
  (C5_thm cexC 2 2 (by norm_num) (by norm_num) 5 0).1 (by norm_num)
